import Mathlib

/-!
Verification of the QCFractal grid-optimization service and task routes.

The definitions below are a shallow embedding of
`qcfractal/components/records/gridoptimization/sockets.py`,
`qcfractal/qcfractal/components/tasks/routes.py`,
`qcfractal/interface/models/records.py` and the alembic migration
`88182596f844`.  Python integers are `Int`/`Nat`, floats are modelled by
`Rat` (the algorithms under study only compare and subtract), Python
`dict`s are association lists in insertion order, raised exceptions are
`Except.error`, and Python `None` is `Option.none`.
-/

namespace QCFractal

/-- Model of Python `str.lower()`: per-character case folding (ASCII, as
performed by Lean's `Char.toLower`; Python's full Unicode case folding
agrees on the ASCII program/method/basis/tag strings this code handles). -/
def pyLower (s : String) : String := String.mk (s.data.map Char.toLower)

/-- A key of the grid-optimization internal state maps: either a plain
string (only `"preoptimization"` is used) or a tuple of grid indices
(`Union[str, Tuple[int, ...]]` in the source). -/
inductive GOKey where
  | str (s : String)
  | tup (t : List Int)
deriving DecidableEq, Repr

/-- One step of the innermost loop body of `expand_ndimensional_grid`
(source lines 60-80): given the running pair of the `compute` set and the
`connections` list, a dimension `d`, a `seed` and a displacement `disp`,
either skip (bound check, duplicate check, already-complete check) or emit
the connection `(seed, new)` and add `new` to `compute`. -/
def expandStep (dimensions : List Int) (complete : List GOKey)
    (st : List (List Int) × List (List Int × List Int))
    (d : Nat) (seed : List Int) (disp : Int) :
    List (List Int) × List (List Int × List Int) :=
  let compute := st.1
  let connections := st.2
  let new_dim := seed.getD d 0 + disp
  -- Bound check
  if new_dim ≥ dimensions.getD d 0 then st
  else if new_dim < 0 then st
  else
    let new := seed.set d new_dim
    -- Push out duplicates from both new compute and complete
    if new ∈ compute then st
    else if GOKey.tup new ∈ complete then st
    else (new :: compute, connections ++ [(seed, new)])

/-- Embedding of `expand_ndimensional_grid(dimensions, seeds, complete)`
(source lines 43-82).  The Python function iterates `d` over
`range(len(dimensions))`, `seed` over the seed set and `disp` over
`[-1, 1]`, threading the `compute` set and the `connections` list; here the
seed set is a list (the properties proved below hold for every iteration
order) and `complete` is the service-state `complete` list, whose members
are `GOKey`s. -/
def expand_ndimensional_grid (dimensions : List Int) (seeds : List (List Int))
    (complete : List GOKey) : List (List Int × List Int) :=
  ((List.range dimensions.length).foldl
    (fun st d =>
      seeds.foldl
        (fun st seed =>
          ([-1, 1] : List Int).foldl (fun st disp => expandStep dimensions complete st d seed disp) st)
        st)
    ([], [])).2

/-- A `foldl` preserves any invariant its step function preserves. -/
theorem foldl_invariant {α β : Type _} {I : β → Prop} {f : β → α → β} {l : List α} {b : β}
    (hb : I b) (hf : ∀ b' a, a ∈ l → I b' → I (f b' a)) : I (l.foldl f b) := by
  induction l generalizing b with
  | nil => exact hb
  | cons x xs ih =>
      exact ih (hf b x (List.mem_cons_self x xs) hb)
        (fun b' a ha hI => hf b' a (List.mem_cons_of_mem _ ha) hI)

/-- Invariant threaded through the three nested loops of
`expand_ndimensional_grid`: every connection emitted so far pairs a seed
with an in-bounds, not-yet-complete, not-seed neighbour differing from its
seed in exactly one axis by one; the `compute` set holds exactly the
emitted neighbours; and no neighbour was emitted twice. -/
def ExpandInv (dims : List Int) (seeds : List (List Int)) (complete : List GOKey)
    (st : List (List Int) × List (List Int × List Int)) : Prop :=
  (∀ p ∈ st.2,
     p.1 ∈ seeds ∧
     p.2.length = dims.length ∧
     (∀ d, d < dims.length → 0 ≤ p.2.getD d 0 ∧ p.2.getD d 0 < dims.getD d 0) ∧
     GOKey.tup p.2 ∉ complete ∧
     p.2 ∉ seeds ∧
     ∃ d, d < dims.length ∧
       (p.2.getD d 0 = p.1.getD d 0 + 1 ∨ p.2.getD d 0 = p.1.getD d 0 - 1) ∧
       ∀ e, e ≠ d → p.2.getD e 0 = p.1.getD e 0) ∧
  (∀ x, x ∈ st.1 ↔ x ∈ st.2.map Prod.snd) ∧
  (st.2.map Prod.snd).Nodup

theorem expandStep_inv {dims : List Int} {seeds : List (List Int)} {complete : List GOKey}
    (Hlen : ∀ s ∈ seeds, s.length = dims.length)
    (Hbound : ∀ s ∈ seeds, ∀ d, d < dims.length → 0 ≤ s.getD d 0 ∧ s.getD d 0 < dims.getD d 0)
    (Hsub : ∀ s ∈ seeds, GOKey.tup s ∈ complete)
    {d : Nat} (hd : d < dims.length) {seed : List Int} (hseed : seed ∈ seeds)
    {disp : Int} (hdisp : disp = -1 ∨ disp = 1)
    {st : List (List Int) × List (List Int × List Int)}
    (hst : ExpandInv dims seeds complete st) :
    ExpandInv dims seeds complete (expandStep dims complete st d seed disp) := by
  simp only [expandStep]
  split_ifs with h1 h2 h3 h4
  · exact hst
  · exact hst
  · exact hst
  · exact hst
  have hslen : seed.length = dims.length := Hlen seed hseed
  have hdl : d < seed.length := hslen ▸ hd
  have hgetd : (seed.set d (seed.getD d 0 + disp)).getD d 0 = seed.getD d 0 + disp := by
    simp [List.getD_eq_getElem?_getD, List.getElem?_set_self, hdl]
  have hgete : ∀ e, e ≠ d → (seed.set d (seed.getD d 0 + disp)).getD e 0 = seed.getD e 0 := by
    intro e he
    simp [List.getD_eq_getElem?_getD, List.getElem?_set_ne (Ne.symm he)]
  obtain ⟨hpairs, hcompute, hnodup⟩ := hst
  have hnewmap : seed.set d (seed.getD d 0 + disp) ∉ st.2.map Prod.snd :=
    fun hmem => h3 ((hcompute _).mpr hmem)
  refine ⟨?_, ?_, ?_⟩
  · intro p hp
    rcases List.mem_append.mp hp with hp | hp
    · exact hpairs p hp
    · have hpeq : p = (seed, seed.set d (seed.getD d 0 + disp)) := by simpa using hp
      subst hpeq
      refine ⟨hseed, by simp [hslen], ?_, h4, fun hin => h4 (Hsub _ hin), ?_⟩
      · intro e he
        by_cases hed : e = d
        · subst hed
          rw [hgetd]
          constructor
          · omega
          · omega
        · rw [hgete e hed]
          exact Hbound seed hseed e he
      · refine ⟨d, hd, ?_, hgete⟩
        rcases hdisp with h | h <;> rw [hgetd, h]
        · right; ring
        · left; rfl
  · intro x
    simp only [List.map_append, List.map_cons, List.mem_cons, List.mem_append,
      List.map_nil, List.mem_singleton]
    rw [hcompute x]
    tauto
  · rw [List.map_append]
    simp only [List.map_cons, List.map_nil]
    rw [List.nodup_append]
    exact ⟨hnodup, List.nodup_singleton _, by simpa using hnewmap⟩

/-- C1: every pair emitted by `expand_ndimensional_grid` (as invoked by the
grid-optimization service, where every seed is an in-bounds grid point and
the seed set has already been merged into `complete`, source lines 578-584)
pairs a seed with a neighbour that is within bounds on every axis, not in
`complete`, not in `seeds`, and differs from its seed in exactly one axis
by exactly one; and no neighbour is emitted twice. -/
theorem expand_ndimensional_grid_sound
    (dims : List Int) (seeds : List (List Int)) (complete : List GOKey)
    (Hlen : ∀ s ∈ seeds, s.length = dims.length)
    (Hbound : ∀ s ∈ seeds, ∀ d, d < dims.length → 0 ≤ s.getD d 0 ∧ s.getD d 0 < dims.getD d 0)
    (Hsub : ∀ s ∈ seeds, GOKey.tup s ∈ complete) :
    (∀ p ∈ expand_ndimensional_grid dims seeds complete,
      p.1 ∈ seeds ∧
      p.2.length = dims.length ∧
      (∀ d, d < dims.length → 0 ≤ p.2.getD d 0 ∧ p.2.getD d 0 < dims.getD d 0) ∧
      GOKey.tup p.2 ∉ complete ∧
      p.2 ∉ seeds ∧
      ∃ d, d < dims.length ∧
        (p.2.getD d 0 = p.1.getD d 0 + 1 ∨ p.2.getD d 0 = p.1.getD d 0 - 1) ∧
        ∀ e, e ≠ d → p.2.getD e 0 = p.1.getD e 0) ∧
    ((expand_ndimensional_grid dims seeds complete).map Prod.snd).Nodup := by
  have hinv : ExpandInv dims seeds complete
      ((List.range dims.length).foldl
        (fun st d =>
          seeds.foldl
            (fun st seed =>
              ([-1, 1] : List Int).foldl
                (fun st disp => expandStep dims complete st d seed disp) st)
            st)
        ([], [])) := by
    apply foldl_invariant
    · exact ⟨by simp, by simp, by simp⟩
    · intro st1 d hdmem hst1
      apply foldl_invariant hst1
      intro st2 seed hseedmem hst2
      apply foldl_invariant hst2
      intro st3 disp hdispmem hst3
      exact expandStep_inv Hlen Hbound Hsub (List.mem_range.mp hdmem) hseedmem
        (by simpa using hdispmem) hst3
  exact ⟨hinv.1, hinv.2.2⟩

/-- Witness for C1 at dimensions `(2, 2)`, the single seed `(0, 0)` and
`complete = [(0, 0)]`. -/
theorem expand_ndimensional_grid_sound_witness :
    (∀ p ∈ expand_ndimensional_grid [2, 2] [[0, 0]] [GOKey.tup [0, 0]],
      p.1 ∈ [[0, 0]] ∧
      p.2.length = ([2, 2] : List Int).length ∧
      (∀ d, d < ([2, 2] : List Int).length →
        0 ≤ p.2.getD d 0 ∧ p.2.getD d 0 < ([2, 2] : List Int).getD d 0) ∧
      GOKey.tup p.2 ∉ [GOKey.tup [0, 0]] ∧
      p.2 ∉ [[0, 0]] ∧
      ∃ d, d < ([2, 2] : List Int).length ∧
        (p.2.getD d 0 = p.1.getD d 0 + 1 ∨ p.2.getD d 0 = p.1.getD d 0 - 1) ∧
        ∀ e, e ≠ d → p.2.getD e 0 = p.1.getD e 0) ∧
    ((expand_ndimensional_grid [2, 2] [[0, 0]] [GOKey.tup [0, 0]]).map Prod.snd).Nodup :=
  expand_ndimensional_grid_sound [2, 2] [[0, 0]] [GOKey.tup [0, 0]]
    (by decide) (by decide) (by decide)

/-- The hexadecimal digit character for `n < 16`, lowercase, as produced by
Python's `'\uXXXX'` formatting in the `json` encoder. -/
def hexDigit (n : Nat) : Char := if n < 10 then Char.ofNat (48 + n) else Char.ofNat (87 + n)

/-- The numeric value of a hexadecimal digit character (the `json` decoder
accepts both cases). -/
def hexVal (c : Char) : Option Nat :=
  if '0' ≤ c ∧ c ≤ '9' then some (c.toNat - 48)
  else if 'a' ≤ c ∧ c ≤ 'f' then some (c.toNat - 87)
  else if 'A' ≤ c ∧ c ≤ 'F' then some (c.toNat - 55)
  else none

/-- Four lowercase hexadecimal digits for `n < 0x10000`, the payload of a
`\uXXXX` escape. -/
def encodeHex4 (n : Nat) : List Char :=
  [hexDigit (n / 4096 % 16), hexDigit (n / 256 % 16), hexDigit (n / 16 % 16), hexDigit (n % 16)]

/-- How Python's `json.dumps` (default `ensure_ascii=True`) renders one
character of a string: `"` and `\` and the five named control characters
get two-character escapes, printable ASCII (`0x20`-`0x7e`) is emitted
as-is, every other character becomes `\uXXXX`, with a surrogate pair for
characters beyond the basic multilingual plane. -/
def escapeChar (c : Char) : List Char :=
  if c = '"' then ['\\', '"']
  else if c = '\\' then ['\\', '\\']
  else if c.toNat = 8 then ['\\', 'b']
  else if c.toNat = 9 then ['\\', 't']
  else if c.toNat = 10 then ['\\', 'n']
  else if c.toNat = 12 then ['\\', 'f']
  else if c.toNat = 13 then ['\\', 'r']
  else if 32 ≤ c.toNat ∧ c.toNat ≤ 126 then [c]
  else if c.toNat < 65536 then '\\' :: 'u' :: encodeHex4 c.toNat
  else
    ('\\' :: 'u' :: encodeHex4 (55296 + (c.toNat - 65536) / 1024)) ++
    ('\\' :: 'u' :: encodeHex4 (56320 + (c.toNat - 65536) % 1024))

/-- The decimal digits of a natural number, most significant first, as
Python's `repr` of a nonnegative `int` prints them. -/
def natDigits (n : Nat) : List Char :=
  if h : n < 10 then [Char.ofNat (48 + n)]
  else natDigits (n / 10) ++ [Char.ofNat (48 + n % 10)]
decreasing_by exact Nat.div_lt_self (by omega) (by omega)

/-- Python's `repr` of an `int`: decimal digits with a leading `-` for
negative values. -/
def intRepr (i : Int) : List Char :=
  if i < 0 then '-' :: natDigits i.natAbs else natDigits i.toNat

/-- The `", "`-separated rendering of the elements after the first of a
JSON array. -/
def sepEncoded (js : List Int) : List Char :=
  (js.map (fun j => [',', ' '] ++ intRepr j)).flatten

/-- A JSON array rendering of a tuple of integers, as `json.dumps` emits
it: `[`, the first element, then `", "` and an element for every further
element, then `]`. -/
def serializeTupBody (t : List Int) : List Char :=
  match t with
  | [] => ['[', ']']
  | i :: rest => '[' :: intRepr i ++ sepEncoded rest ++ [']']

/-- Embedding of `serialize_key` (source lines 85-100): `json.dumps` of a
key that is either a string or a tuple of integers.  A string becomes a
quoted, escaped JSON string; a tuple becomes a JSON array with the default
`", "` separator. -/
def serialize_key : GOKey → String
  | GOKey.str s => String.mk ('"' :: (s.data.map escapeChar).flatten ++ ['"'])
  | GOKey.tup t => String.mk (serializeTupBody t)

/-- The JSON whitespace characters (`json.decoder.WHITESPACE`). -/
def isJsonWs (c : Char) : Bool := c = ' ' || c = '\t' || c = '\n' || c = '\r'

/-- Drop leading JSON whitespace. -/
def skipWs : List Char → List Char
  | [] => []
  | c :: rest => if isJsonWs c then skipWs rest else c :: rest

/-- The character denoted by a two-character escape (`json`'s `BACKSLASH`
table, with `\u` handled separately). -/
def simpleEscape (e : Char) : Option Char :=
  if e = '"' then some '"'
  else if e = '\\' then some '\\'
  else if e = '/' then some '/'
  else if e = 'b' then some (Char.ofNat 8)
  else if e = 'f' then some (Char.ofNat 12)
  else if e = 'n' then some (Char.ofNat 10)
  else if e = 'r' then some (Char.ofNat 13)
  else if e = 't' then some (Char.ofNat 9)
  else none

/-- One step of `json`'s string scanner (`py_scanstring`, strict mode), on
the characters after the opening quote: `some (none, r)` means the closing
quote was consumed, `some (some c, r)` means one character `c` was decoded
(a literal character, a two-character escape, a `\uXXXX` escape, or a
high/low surrogate pair joined into one character).  Raw control
characters are rejected.  (CPython tolerates lone surrogates inside `str`;
a Lean `Char` cannot hold one, so this model rejects them — `serialize_key`
never produces them.) -/
def scanStrToken : List Char → Option (Option Char × List Char)
  | [] => none
  | c :: rest =>
    if c = '"' then some (none, rest)
    else if c = '\\' then
      match rest with
      | [] => none
      | e :: rest2 =>
        if e = 'u' then
          match rest2 with
          | h1 :: h2 :: h3 :: h4 :: rest3 =>
            match hexVal h1, hexVal h2, hexVal h3, hexVal h4 with
            | some v1, some v2, some v3, some v4 =>
              let n := v1 * 4096 + v2 * 256 + v3 * 16 + v4
              if 55296 ≤ n ∧ n < 56320 then
                match rest3 with
                | b1 :: u1 :: k1 :: k2 :: k3 :: k4 :: rest4 =>
                  if b1 = '\\' ∧ u1 = 'u' then
                    match hexVal k1, hexVal k2, hexVal k3, hexVal k4 with
                    | some w1, some w2, some w3, some w4 =>
                      let m := w1 * 4096 + w2 * 256 + w3 * 16 + w4
                      if 56320 ≤ m ∧ m < 57344 then
                        some (some (Char.ofNat (65536 + (n - 55296) * 1024 + (m - 56320))), rest4)
                      else none
                    | _, _, _, _ => none
                  else none
                | _ => none
              else if 56320 ≤ n ∧ n < 57344 then none
              else some (some (Char.ofNat n), rest3)
            | _, _, _, _ => none
          | _ => none
        else
          match simpleEscape e with
          | some c2 => some (some c2, rest2)
          | none => none
    else if c.toNat < 32 then none
    else some (some c, rest)

/-- The string scanner's loop: decode characters until the closing quote.
The fuel argument bounds the number of scanner steps; since every step
consumes at least one character of input, the input length (as passed by
`parseStringBody`) always suffices, so the fuel is only a termination
device and never alters the result. -/
def parseStringBodyFuel : Nat → List Char → Option (List Char × List Char)
  | 0, _ => none
  | fuel + 1, input =>
    match scanStrToken input with
    | some (none, r) => some ([], r)
    | some (some c, r) =>
      match parseStringBodyFuel fuel r with
      | some (cs, r2) => some (c :: cs, r2)
      | none => none
    | none => none

/-- Model of `json`'s string scanner on the characters after the opening
quote: the decoded characters and the input after the closing quote. -/
def parseStringBody (input : List Char) : Option (List Char × List Char) :=
  parseStringBodyFuel (input.length + 1) input

/-- Decimal digit test (`[0-9]` in `json`'s number regular expression). -/
def isDig (c : Char) : Bool := 48 ≤ c.toNat && c.toNat ≤ 57

/-- The numeric value of a decimal digit character. -/
def digitVal (c : Char) : Nat := c.toNat - 48

/-- Does the remaining input start a fraction or exponent part (which
would make the number a float)? -/
def floatFollows (rest : List Char) : Bool :=
  match rest with
  | r :: _ => r = '.' || r = 'e' || r = 'E'
  | [] => false

/-- Parse a JSON nonnegative integer literal: a maximal run of decimal
digits, rejecting an empty run, a redundant leading zero, and a following
fraction or exponent (which `json.loads` would turn into a float — a value
`deserialize_key`'s callers never see and `GOKey` does not represent). -/
def parseNat (input : List Char) : Option (Nat × List Char) :=
  let ds := input.takeWhile isDig
  let rest := input.dropWhile isDig
  match ds with
  | [] => none
  | d :: ds' =>
    if d = '0' ∧ ds' ≠ [] then none
    else if floatFollows rest then none
    else some ((d :: ds').foldl (fun a c => a * 10 + digitVal c) 0, rest)

/-- Parse a JSON integer literal with an optional leading minus sign. -/
def parseInt : List Char → Option (Int × List Char)
  | [] => none
  | c :: rest =>
    if c = '-' then
      match parseNat rest with
      | some (n, r) => some (-(n : Int), r)
      | none => none
    else
      match parseNat (c :: rest) with
      | some (n, r) => some ((n : Int), r)
      | none => none

/-- Model of `json`'s array scanner after the first element: repeatedly a
comma (with surrounding whitespace) and an integer, until the closing
bracket.  The fuel argument bounds the number of remaining elements; the
top-level caller passes the input length, which always suffices since each
element consumes at least one character. -/
def parseIntsLoop : Nat → List Char → Option (List Int × List Char)
  | 0, _ => none
  | fuel + 1, input =>
    match skipWs input with
    | [] => none
    | c :: r =>
      if c = ']' then some ([], r)
      else if c = ',' then
        match parseInt (skipWs r) with
        | some (i, r3) =>
          (match parseIntsLoop fuel r3 with
           | some (is, r4) => some (i :: is, r4)
           | none => none)
        | none => none
      else none

/-- Model of `json.loads` restricted to the two document shapes
`deserialize_key` can ever return from (source lines 103-110): a JSON
string (giving back a `str`) or a JSON array of integers (which
`deserialize_key` converts to a tuple).  Any other document — an object, a
bare number, `true`/`false`/`null` — makes `deserialize_key` fail (either
`json.loads` raises, or `tuple(r)` raises `TypeError`), modelled by
`none`. -/
def parseValue (input : List Char) : Option (GOKey × List Char) :=
  match skipWs input with
  | [] => none
  | c :: rest =>
    if c = '"' then
      match parseStringBody rest with
      | some (cs, r) => some (GOKey.str (String.mk cs), r)
      | none => none
    else if c = '[' then
      match skipWs rest with
      | [] => none
      | c2 :: r =>
        if c2 = ']' then some (GOKey.tup [], r)
        else
          match parseInt (c2 :: r) with
          | some (i, r3) =>
            match parseIntsLoop (r3.length + 1) r3 with
            | some (is, r4) => some (GOKey.tup (i :: is), r4)
            | none => none
          | none => none
    else none

/-- Embedding of `deserialize_key` (source lines 103-110): `json.loads`
of the whole document (trailing whitespace allowed, trailing garbage
rejected), with a JSON array converted to a tuple. -/
def deserialize_key (s : String) : Option GOKey :=
  match parseValue s.data with
  | some (k, rest) => if skipWs rest = [] then some k else none
  | none => none

theorem char_toNat_ofNat {n : Nat} (h : n.isValidChar) : (Char.ofNat n).toNat = n := by
  simp only [Char.ofNat, dif_pos h]
  rcases h with h | ⟨h1, h2⟩ <;> rfl

theorem char_valid (c : Char) : c.toNat < 55296 ∨ (57343 < c.toNat ∧ c.toNat < 1114112) := c.valid

theorem char_ne_of_toNat_ne {c d : Char} (h : c.toNat ≠ d.toNat) : c ≠ d :=
  fun he => h (he ▸ rfl)

theorem hexVal_hexDigit : ∀ k, k < 16 → hexVal (hexDigit k) = some k := by decide

theorem scanStrToken_u_single (a b c d : Char) (t : List Char) (v1 v2 v3 v4 : Nat)
    (h1 : hexVal a = some v1) (h2 : hexVal b = some v2)
    (h3 : hexVal c = some v3) (h4 : hexVal d = some v4)
    (hs1 : ¬(55296 ≤ v1 * 4096 + v2 * 256 + v3 * 16 + v4 ∧
             v1 * 4096 + v2 * 256 + v3 * 16 + v4 < 56320))
    (hs2 : ¬(56320 ≤ v1 * 4096 + v2 * 256 + v3 * 16 + v4 ∧
             v1 * 4096 + v2 * 256 + v3 * 16 + v4 < 57344)) :
    scanStrToken ('\\' :: 'u' :: a :: b :: c :: d :: t) =
      some (some (Char.ofNat (v1 * 4096 + v2 * 256 + v3 * 16 + v4)), t) := by
  simp only [scanStrToken, h1, h2, h3, h4]
  rw [if_neg hs1, if_neg hs2]
  simp

theorem scanStrToken_u_pair (a b c d e f g h : Char) (t : List Char)
    (v1 v2 v3 v4 w1 w2 w3 w4 : Nat)
    (h1 : hexVal a = some v1) (h2 : hexVal b = some v2)
    (h3 : hexVal c = some v3) (h4 : hexVal d = some v4)
    (k1 : hexVal e = some w1) (k2 : hexVal f = some w2)
    (k3 : hexVal g = some w3) (k4 : hexVal h = some w4)
    (hs : 55296 ≤ v1 * 4096 + v2 * 256 + v3 * 16 + v4 ∧
          v1 * 4096 + v2 * 256 + v3 * 16 + v4 < 56320)
    (hm : 56320 ≤ w1 * 4096 + w2 * 256 + w3 * 16 + w4 ∧
          w1 * 4096 + w2 * 256 + w3 * 16 + w4 < 57344) :
    scanStrToken ('\\' :: 'u' :: a :: b :: c :: d :: '\\' :: 'u' :: e :: f :: g :: h :: t) =
      some (some (Char.ofNat (65536 + (v1 * 4096 + v2 * 256 + v3 * 16 + v4 - 55296) * 1024 +
        (w1 * 4096 + w2 * 256 + w3 * 16 + w4 - 56320))), t) := by
  simp only [scanStrToken, h1, h2, h3, h4, k1, k2, k3, k4]
  rw [if_pos hs, if_pos hm]
  simp

/-- The string scanner inverts the string escaper: scanning an escaped
character followed by anything yields exactly that character. -/
theorem scanStrToken_escapeChar (c : Char) (t : List Char) :
    scanStrToken (escapeChar c ++ t) = some (some c, t) := by
  have hvalid := char_valid c
  by_cases hq : c = '"'
  · subst hq; rfl
  by_cases hb : c = '\\'
  · subst hb; rfl
  by_cases h8 : c.toNat = 8
  · have hc : c = Char.ofNat 8 := by rw [← h8, Char.ofNat_toNat]
    rw [hc]; rfl
  by_cases h9 : c.toNat = 9
  · have hc : c = Char.ofNat 9 := by rw [← h9, Char.ofNat_toNat]
    rw [hc]; rfl
  by_cases h10 : c.toNat = 10
  · have hc : c = Char.ofNat 10 := by rw [← h10, Char.ofNat_toNat]
    rw [hc]; rfl
  by_cases h12 : c.toNat = 12
  · have hc : c = Char.ofNat 12 := by rw [← h12, Char.ofNat_toNat]
    rw [hc]; rfl
  by_cases h13 : c.toNat = 13
  · have hc : c = Char.ofNat 13 := by rw [← h13, Char.ofNat_toNat]
    rw [hc]; rfl
  by_cases hpr : 32 ≤ c.toNat ∧ c.toNat ≤ 126
  · have hesc : escapeChar c = [c] := by
      simp only [escapeChar]
      rw [if_neg hq, if_neg hb, if_neg h8, if_neg h9, if_neg h10, if_neg h12, if_neg h13,
        if_pos hpr]
    rw [hesc, List.singleton_append]
    simp only [scanStrToken]
    rw [if_neg hq, if_neg hb, if_neg (show ¬c.toNat < 32 by omega)]
  by_cases hbmp : c.toNat < 65536
  · have hesc : escapeChar c = '\\' :: 'u' :: encodeHex4 c.toNat := by
      simp only [escapeChar]
      rw [if_neg hq, if_neg hb, if_neg h8, if_neg h9, if_neg h10, if_neg h12, if_neg h13,
        if_neg hpr, if_pos hbmp]
    have hstep := scanStrToken_u_single (hexDigit (c.toNat / 4096 % 16))
      (hexDigit (c.toNat / 256 % 16)) (hexDigit (c.toNat / 16 % 16)) (hexDigit (c.toNat % 16)) t
      (c.toNat / 4096 % 16) (c.toNat / 256 % 16) (c.toNat / 16 % 16) (c.toNat % 16)
      (hexVal_hexDigit _ (by omega)) (hexVal_hexDigit _ (by omega))
      (hexVal_hexDigit _ (by omega)) (hexVal_hexDigit _ (by omega))
      (by omega) (by omega)
    have hN : c.toNat / 4096 % 16 * 4096 + c.toNat / 256 % 16 * 256 +
        c.toNat / 16 % 16 * 16 + c.toNat % 16 = c.toNat := by omega
    rw [hesc]
    show scanStrToken ('\\' :: 'u' :: hexDigit (c.toNat / 4096 % 16) ::
      hexDigit (c.toNat / 256 % 16) :: hexDigit (c.toNat / 16 % 16) ::
      hexDigit (c.toNat % 16) :: t) = some (some c, t)
    rw [hstep, hN, Char.ofNat_toNat]
  · -- astral plane: surrogate pair
    have hesc : escapeChar c =
        ('\\' :: 'u' :: encodeHex4 (55296 + (c.toNat - 65536) / 1024)) ++
        ('\\' :: 'u' :: encodeHex4 (56320 + (c.toNat - 65536) % 1024)) := by
      simp only [escapeChar]
      rw [if_neg hq, if_neg hb, if_neg h8, if_neg h9, if_neg h10, if_neg h12, if_neg h13,
        if_neg hpr, if_neg hbmp]
    set hi := 55296 + (c.toNat - 65536) / 1024 with hhi
    set lo := 56320 + (c.toNat - 65536) % 1024 with hlo
    have hstep := scanStrToken_u_pair (hexDigit (hi / 4096 % 16)) (hexDigit (hi / 256 % 16))
      (hexDigit (hi / 16 % 16)) (hexDigit (hi % 16)) (hexDigit (lo / 4096 % 16))
      (hexDigit (lo / 256 % 16)) (hexDigit (lo / 16 % 16)) (hexDigit (lo % 16)) t
      (hi / 4096 % 16) (hi / 256 % 16) (hi / 16 % 16) (hi % 16)
      (lo / 4096 % 16) (lo / 256 % 16) (lo / 16 % 16) (lo % 16)
      (hexVal_hexDigit _ (by omega)) (hexVal_hexDigit _ (by omega))
      (hexVal_hexDigit _ (by omega)) (hexVal_hexDigit _ (by omega))
      (hexVal_hexDigit _ (by omega)) (hexVal_hexDigit _ (by omega))
      (hexVal_hexDigit _ (by omega)) (hexVal_hexDigit _ (by omega))
      (by omega) (by omega)
    have hN : 65536 +
        (hi / 4096 % 16 * 4096 + hi / 256 % 16 * 256 + hi / 16 % 16 * 16 + hi % 16 - 55296) * 1024 +
        (lo / 4096 % 16 * 4096 + lo / 256 % 16 * 256 + lo / 16 % 16 * 16 + lo % 16 - 56320) =
        c.toNat := by omega
    rw [hesc]
    show scanStrToken ('\\' :: 'u' :: hexDigit (hi / 4096 % 16) :: hexDigit (hi / 256 % 16) ::
      hexDigit (hi / 16 % 16) :: hexDigit (hi % 16) :: '\\' :: 'u' :: hexDigit (lo / 4096 % 16) ::
      hexDigit (lo / 256 % 16) :: hexDigit (lo / 16 % 16) :: hexDigit (lo % 16) :: t) =
      some (some c, t)
    rw [hstep, hN, Char.ofNat_toNat]

theorem escapeChar_length_pos (c : Char) : 0 < (escapeChar c).length := by
  simp only [escapeChar]
  split_ifs <;> simp

/-- The fueled string loop inverts the escaper whenever the fuel covers the
escaped text. -/
theorem parseStringBodyFuel_encode (cs : List Char) : ∀ (fuel : Nat) (rest : List Char),
    ((cs.map escapeChar).flatten).length + 1 ≤ fuel →
    parseStringBodyFuel fuel ((cs.map escapeChar).flatten ++ '"' :: rest) = some (cs, rest) := by
  induction cs with
  | nil =>
    intro fuel rest hf
    match fuel, hf with
    | fuel + 1, _ =>
      simp only [List.map_nil, List.flatten_nil, List.nil_append, parseStringBodyFuel]
      rfl
  | cons c cs ih =>
    intro fuel rest hf
    have hclen := escapeChar_length_pos c
    simp only [List.map_cons, List.flatten_cons, List.length_append] at hf ⊢
    match fuel, hf with
    | fuel + 1, hf =>
      simp only [parseStringBodyFuel, List.append_assoc, scanStrToken_escapeChar]
      rw [ih fuel rest (by omega)]

theorem parseStringBody_encode (cs : List Char) (rest : List Char) :
    parseStringBody ((cs.map escapeChar).flatten ++ '"' :: rest) = some (cs, rest) := by
  unfold parseStringBody
  apply parseStringBodyFuel_encode
  simp

theorem isDig_toNat {c : Char} (h : isDig c = true) : 48 ≤ c.toNat ∧ c.toNat ≤ 57 := by
  simpa [isDig] using h

theorem isDig_digitChar {k : Nat} (hk : k < 10) : isDig (Char.ofNat (48 + k)) = true := by
  have hv : (48 + k).isValidChar := Or.inl (by omega)
  simp [isDig, char_toNat_ofNat hv]
  omega

theorem digitVal_digitChar {k : Nat} (hk : k < 10) : digitVal (Char.ofNat (48 + k)) = k := by
  have hv : (48 + k).isValidChar := Or.inl (by omega)
  simp [digitVal, char_toNat_ofNat hv]

theorem natDigits_all_dig : ∀ n : Nat, ∀ c ∈ natDigits n, isDig c = true := by
  intro n
  induction n using Nat.strong_induction_on with
  | _ n ih =>
    intro c hc
    rw [natDigits] at hc
    split_ifs at hc with h
    · simp only [List.mem_singleton] at hc
      subst hc
      exact isDig_digitChar h
    · rcases List.mem_append.mp hc with hc | hc
      · exact ih (n / 10) (Nat.div_lt_self (by omega) (by omega)) c hc
      · simp only [List.mem_singleton] at hc
        subst hc
        exact isDig_digitChar (Nat.mod_lt _ (by omega))

theorem natDigits_ne_nil (n : Nat) : natDigits n ≠ [] := by
  rw [natDigits]
  split_ifs <;> simp

/-- The leading digit of `natDigits n` is `'0'` only for `n = 0`. -/
theorem natDigits_head : ∀ n : Nat, ∃ d ds, natDigits n = d :: ds ∧ (d = '0' → n = 0) := by
  intro n
  induction n using Nat.strong_induction_on with
  | _ n ih =>
    rw [natDigits]
    split_ifs with h
    · refine ⟨Char.ofNat (48 + n), [], rfl, fun hd => ?_⟩
      have := congrArg Char.toNat hd
      rw [char_toNat_ofNat (Or.inl (by omega))] at this
      have h0 : ('0' : Char).toNat = 48 := rfl
      omega
    · obtain ⟨d, ds, hrec, hzero⟩ := ih (n / 10) (Nat.div_lt_self (by omega) (by omega))
      refine ⟨d, ds ++ [Char.ofNat (48 + n % 10)], by rw [hrec]; simp, fun hd => ?_⟩
      have := hzero hd
      omega

/-- Decoding the decimal digits of `n` with the standard accumulator fold
recovers `n`. -/
theorem foldl_natDigits : ∀ n a : Nat,
    (natDigits n).foldl (fun acc c => acc * 10 + digitVal c) a =
      a * 10 ^ (natDigits n).length + n := by
  intro n
  induction n using Nat.strong_induction_on with
  | _ n ih =>
    intro a
    rw [natDigits]
    split_ifs with h
    · simp [digitVal_digitChar h]
    · rw [List.foldl_append, ih (n / 10) (Nat.div_lt_self (by omega) (by omega)) a]
      simp only [List.foldl_cons, List.foldl_nil, List.length_append, List.length_cons,
        List.length_nil]
      rw [digitVal_digitChar (Nat.mod_lt _ (by omega))]
      calc (a * 10 ^ (natDigits (n / 10)).length + n / 10) * 10 + n % 10
          = a * (10 ^ (natDigits (n / 10)).length * 10) + (n / 10 * 10 + n % 10) := by ring
        _ = a * 10 ^ ((natDigits (n / 10)).length + 0 + 1) + n := by
            have hdm : n / 10 * 10 + n % 10 = n := by omega
            rw [hdm, Nat.add_zero, pow_succ]

theorem skipWs_not_ws {c : Char} (h : isJsonWs c = false) :
    ∀ l : List Char, skipWs (c :: l) = c :: l := by
  intro l
  simp [skipWs, h]

theorem skipWs_ws {c : Char} (h : isJsonWs c = true) :
    ∀ l : List Char, skipWs (c :: l) = skipWs l := by
  intro l
  simp [skipWs, h]

theorem isJsonWs_false_of_toNat {c : Char} (h : 33 ≤ c.toNat) : isJsonWs c = false := by
  simp only [isJsonWs, Bool.or_eq_false_iff, decide_eq_false_iff_not]
  refine ⟨⟨⟨?_, ?_⟩, ?_⟩, ?_⟩ <;> · intro he; subst he; exact absurd h (by decide)

theorem takeWhile_digits (l r : List Char) (hl : ∀ c ∈ l, isDig c = true)
    (hr : ∀ c, r.head? = some c → isDig c = false) :
    (l ++ r).takeWhile isDig = l ∧ (l ++ r).dropWhile isDig = r := by
  induction l with
  | nil =>
    cases r with
    | nil => simp
    | cons c r' =>
      have := hr c rfl
      simp [List.takeWhile_cons, List.dropWhile_cons, this]
  | cons x xs ih =>
    have hx := hl x (List.mem_cons_self x xs)
    have := ih (fun c hc => hl c (List.mem_cons_of_mem _ hc))
    simp [List.cons_append, List.takeWhile_cons, List.dropWhile_cons, hx, this.1, this.2]

/-- `parseNat` inverts `natDigits` when what follows cannot extend the
number. -/
theorem parseNat_encode (n : Nat) (r : List Char)
    (hr : ∀ c, r.head? = some c → isDig c = false ∧ c ≠ '.' ∧ c ≠ 'e' ∧ c ≠ 'E') :
    parseNat (natDigits n ++ r) = some (n, r) := by
  obtain ⟨tw, dw⟩ :=
    takeWhile_digits (natDigits n) r (natDigits_all_dig n) (fun c hc => (hr c hc).1)
  obtain ⟨d, ds, hnd, hd0⟩ := natDigits_head n
  have hfold : (d :: ds).foldl (fun a c => a * 10 + digitVal c) 0 = n := by
    rw [← hnd, foldl_natDigits]
    simp
  have hcheck : ¬(d = '0' ∧ ds ≠ []) := by
    rintro ⟨h0, hne⟩
    have hn0 := hd0 h0
    subst hn0
    have hz : natDigits 0 = ['0'] := by rw [natDigits]; rfl
    rw [hz] at hnd
    have : ds = [] := by
      have := congrArg List.tail hnd
      simpa using this.symm
    exact hne this
  have hff : floatFollows r = false := by
    cases r with
    | nil => rfl
    | cons c r' =>
      obtain ⟨-, hdot, he, hE⟩ := hr c rfl
      simp [floatFollows, hdot, he, hE]
  rw [hnd] at tw dw ⊢
  simp only [parseNat, tw, dw]
  rw [if_neg hcheck, hff]
  simp [hfold]

theorem intRepr_head : ∀ i : Int, ∃ c tail, intRepr i = c :: tail ∧
    (48 ≤ c.toNat ∧ c.toNat ≤ 57 ∨ c.toNat = 45) := by
  intro i
  by_cases hi : i < 0
  · exact ⟨'-', natDigits i.natAbs, by simp [intRepr, hi], Or.inr rfl⟩
  · obtain ⟨d, ds, hnd, -⟩ := natDigits_head i.toNat
    refine ⟨d, ds, by simp [intRepr, hi, hnd], Or.inl ?_⟩
    exact isDig_toNat (natDigits_all_dig _ d (by rw [hnd]; exact List.mem_cons_self d ds))

/-- `parseInt` inverts `intRepr` when what follows cannot extend the
number. -/
theorem parseInt_encode (i : Int) (r : List Char)
    (hr : ∀ c, r.head? = some c → isDig c = false ∧ c ≠ '.' ∧ c ≠ 'e' ∧ c ≠ 'E') :
    parseInt (intRepr i ++ r) = some (i, r) := by
  by_cases hi : i < 0
  · simp only [intRepr, if_pos hi, List.cons_append, parseInt, if_true]
    rw [parseNat_encode i.natAbs r hr]
    have hneg : -((i.natAbs : Int)) = i := by omega
    exact congrArg (fun z => some (z, r)) hneg
  · simp only [intRepr, if_neg hi]
    obtain ⟨d, ds, hnd, -⟩ := natDigits_head i.toNat
    have hdig : isDig d = true :=
      natDigits_all_dig _ d (by rw [hnd]; exact List.mem_cons_self d ds)
    have hne : d ≠ '-' := by
      refine char_ne_of_toNat_ne ?_
      have := isDig_toNat hdig
      have h45 : ('-' : Char).toNat = 45 := rfl
      omega
    rw [hnd, List.cons_append]
    simp only [parseInt]
    rw [if_neg hne, ← List.cons_append, ← hnd, parseNat_encode i.toNat r hr]
    simp [Int.toNat_of_nonneg (by omega : (0 : Int) ≤ i)]

theorem sepEncoded_cons (j : Int) (js : List Int) :
    sepEncoded (j :: js) = ',' :: ' ' :: (intRepr j ++ sepEncoded js) := by
  simp [sepEncoded]

/-- After an array element the input continues with `", "` or `]`, neither
of which can extend a number. -/
theorem sep_close_head (js : List Int) (r : List Char) :
    ∀ c, (sepEncoded js ++ ']' :: r).head? = some c →
      isDig c = false ∧ c ≠ '.' ∧ c ≠ 'e' ∧ c ≠ 'E' := by
  intro c hc
  cases js with
  | nil =>
    simp [sepEncoded] at hc
    subst hc
    exact ⟨by decide, by decide, by decide, by decide⟩
  | cons j js' =>
    rw [sepEncoded_cons] at hc
    simp at hc
    subst hc
    exact ⟨by decide, by decide, by decide, by decide⟩

/-- The array-continuation parser inverts the `", "`-separated encoding
whenever the fuel covers the number of elements. -/
theorem parseIntsLoop_encode : ∀ (js : List Int) (fuel : Nat) (r : List Char),
    js.length + 1 ≤ fuel →
    parseIntsLoop fuel (sepEncoded js ++ ']' :: r) = some (js, r) := by
  intro js
  induction js with
  | nil =>
    intro fuel r hf
    match fuel, hf with
    | fuel + 1, _ =>
      simp only [sepEncoded, List.map_nil, List.flatten_nil, List.nil_append, parseIntsLoop]
      rw [skipWs_not_ws (by decide) r]
      simp
  | cons j js ih =>
    intro fuel r hf
    match fuel, hf with
    | fuel + 1, hf =>
      obtain ⟨c0, t0, hc0, hc0n⟩ := intRepr_head j
      have hws0 : isJsonWs c0 = false :=
        isJsonWs_false_of_toNat (by rcases hc0n with h | h <;> omega)
      have hskip0 : skipWs (intRepr j ++ (sepEncoded js ++ ']' :: r)) =
          intRepr j ++ (sepEncoded js ++ ']' :: r) := by
        rw [hc0, List.cons_append]
        exact skipWs_not_ws hws0 _
      simp only [sepEncoded_cons, List.cons_append, List.append_assoc, parseIntsLoop]
      simp only [skipWs_not_ws (show isJsonWs ',' = false by decide),
        skipWs_ws (show isJsonWs ' ' = true by decide), hskip0]
      rw [parseInt_encode j _ (sep_close_head js r)]
      have hloop := ih fuel r (by simp at hf ⊢; omega)
      simp [hloop]

theorem sepEncoded_length (js : List Int) : js.length ≤ (sepEncoded js).length := by
  induction js with
  | nil => simp [sepEncoded]
  | cons j js ih =>
    rw [sepEncoded_cons]
    simp only [List.length_cons, List.length_append]
    omega

theorem data_mk (l : List Char) : (String.mk l).data = l := rfl

theorem skipWs_nil : skipWs [] = [] := rfl

/-- C9: key serialization round-trips — for every key that is either a
string or a tuple of integers, `deserialize_key (serialize_key key)`
recovers the original key (tuples are serialized to JSON arrays and
recovered as tuples, strings are recovered as strings). -/
theorem serialize_key_roundtrip (k : GOKey) :
    deserialize_key (serialize_key k) = some k := by
  cases k with
  | str s =>
    have hbody : parseStringBody ((s.data.map escapeChar).flatten ++ ['"']) =
        some (s.data, []) := parseStringBody_encode s.data []
    simp only [serialize_key, deserialize_key, data_mk, parseValue, List.cons_append]
    rw [skipWs_not_ws (show isJsonWs '"' = false by decide)]
    simp [hbody, skipWs_nil]
  | tup t =>
    cases t with
    | nil => rfl
    | cons i is =>
      obtain ⟨c0, t0, hc0, hc0n⟩ := intRepr_head i
      have hws0 : isJsonWs c0 = false :=
        isJsonWs_false_of_toNat (by rcases hc0n with h | h <;> omega)
      have hc0br : c0 ≠ ']' := by
        refine char_ne_of_toNat_ne ?_
        have h93 : (']' : Char).toNat = 93 := rfl
        omega
      have hskip : skipWs (c0 :: (t0 ++ (sepEncoded is ++ [']']))) =
          c0 :: (t0 ++ (sepEncoded is ++ [']'])) := skipWs_not_ws hws0 _
      have hpi : parseInt (c0 :: (t0 ++ (sepEncoded is ++ [']']))) =
          some (i, sepEncoded is ++ [']']) := by
        have h := parseInt_encode i (sepEncoded is ++ [']']) (sep_close_head is [])
        rw [hc0, List.cons_append] at h
        exact h
      have hloop : parseIntsLoop ((sepEncoded is).length + 1 + 1)
          (sepEncoded is ++ [']']) = some (is, []) := by
        apply parseIntsLoop_encode
        have := sepEncoded_length is
        omega
      simp only [serialize_key, serializeTupBody, deserialize_key, data_mk, parseValue,
        List.cons_append, List.append_assoc]
      rw [skipWs_not_ws (show isJsonWs '[' = false by decide)]
      simp [hc0, hskip, hpi, hloop, hc0br, skipWs_nil]

/-- The step type of a scan dimension (`StepTypeEnum` in
`qcportal.records.gridoptimization`): `absolute` steps are raw coordinate
values, `relative` steps are offsets from the starting molecule. -/
inductive StepTypeEnum where
  | absolute
  | relative
deriving DecidableEq, Repr

/-- One scan dimension of a grid-optimization specification
(`ScanDimension` in `qcportal.records.gridoptimization`): a coordinate
type, the atom indices defining the coordinate, the scan steps and the
step type.  Floats are modelled by `Rat`. -/
structure ScanDimension where
  type : String
  indices : List Nat
  steps : List Rat
  step_type : StepTypeEnum

/-- Modelled from the spec: a molecule (`qcportal.molecules`, not under
`src/`) is used by this service only through `Molecule.measure`, which
returns the value of the internal coordinate defined by the given atom
indices. -/
structure Molecule where
  measureFn : List Nat → Rat

def Molecule.measure (m : Molecule) (indices : List Nat) : Rat := m.measureFn indices

/-- The scanning loop of `np.abs(np.array(steps) - m).argmin()`: walk the
remaining steps keeping the first index attaining the least absolute
difference so far. -/
def argminAbsDiffGo (m : Rat) : List Rat → Nat → Nat → Rat → Nat
  | [], _, best, _ => best
  | x :: xs, idx, best, bestVal =>
    if |x - m| < bestVal then argminAbsDiffGo m xs (idx + 1) idx |x - m|
    else argminAbsDiffGo m xs (idx + 1) best bestVal

/-- Embedding of `np.abs(np.array(steps) - m).argmin()` (source line 127):
the first index of the minimal absolute difference.  `np.argmin` raises on
an empty array; the result for `[]` here is a dummy and every theorem
about it assumes a nonempty step list. -/
def argminAbsDiff (steps : List Rat) (m : Rat) : Nat :=
  match steps with
  | [] => 0
  | x :: xs => argminAbsDiffGo m xs 1 0 |x - m|

/-- Embedding of `calculate_starting_grid(scans_dict, molecule)` (source
lines 113-130): for each scan, measure the starting molecule when the step
type is `absolute` and use `0` when it is `relative`, then take the index
of the closest step.  (`parse_obj_as` validation of the scan dictionaries
happens in `qcportal` models outside `src/` and is not re-modelled; the
`KeyError` branch is unreachable since the enum has exactly these two
members.) -/
def calculate_starting_grid (scans : List ScanDimension) (molecule : Molecule) : List Int :=
  scans.map (fun scan =>
    let m : Rat :=
      match scan.step_type with
      | StepTypeEnum.absolute => molecule.measure scan.indices
      | StepTypeEnum.relative => 0
    (argminAbsDiff scan.steps m : Int))

/-- The record statuses (`RecordStatusEnum` in `qcportal.records`). -/
inductive RecordStatusEnum where
  | waiting
  | running
  | complete
  | error
  | cancelled
  | deleted
  | invalid
deriving DecidableEq, Repr

/-- The provenance dictionary stamped on the compute history by
`iterate_service` (source lines 510-514). -/
structure Provenance where
  creator : String
  version : String
  routine : String
deriving DecidableEq, Repr

/-- Modelled from the spec: the package version string
(`qcfractal.__version__`, not under `src/`). -/
def qcfractal_version : String := "qcfractal-version"

def go_provenance : Provenance :=
  { creator := "qcfractal", version := qcfractal_version,
    routine := "qcfractal.services.gridoptimization" }

/-- One entry of a record's compute history: the stamped provenance (if
any) and the appended stdout blocks. -/
structure HistoryEntry where
  provenance : Option Provenance
  stdout : List String

/-- One optimization constraint, as the constraint template and the
per-grid-point constraints hold it: the coordinate type, its atom indices
and (once filled in) the constrained value. -/
structure Constraint where
  ctype : String
  indices : List Nat
  value : Option Rat

/-- The grid-optimization keywords of the specification. -/
structure GOKeywords where
  scans : List ScanDimension
  preoptimization : Bool

/-- The optimization-specification keywords, of which the service touches
only `keywords["constraints"]["set"]` (source lines 677-679). -/
structure OptKeywords where
  constraints_set : List Constraint

/-- The input of a child optimization created by `submit_optimizations`:
the molecule and the resulting `constraints.set` list of the submitted
specification. -/
structure OptimizationInput where
  molecule : Molecule
  constraints_set : List Constraint

/-- A completed child optimization record as seen through
`dep.record` (only its final molecule is read). -/
structure OptRecord where
  final_molecule_id : Nat
  final_molecule : Molecule

/-- A `ServiceDependenciesORM` row: the child record id and the
driver-chosen key stored in `extras["key"]`.  Keys are modelled as `GOKey`
values; the string serialization layer is `serialize_key`, whose
faithfulness is `serialize_key_roundtrip`. -/
structure ServiceDependency where
  record_id : Nat
  extras_key : GOKey

/-- Embedding of `GridoptimizationServiceState` (source lines 133-148).
`constraint_template` is stored in the database as a JSON string; it is
modelled by the decoded value (the encoding is a `json` round trip of the
kind proved in `serialize_key_roundtrip`). -/
structure GridoptimizationServiceState where
  iteration : Int
  complete : List GOKey
  dimensions : List Int
  constraint_template : List Constraint

/-- The slice of a `GridoptimizationRecordORM` touched by the service. -/
structure GORecord where
  status : RecordStatusEnum
  initial_molecule_id : Nat
  initial_molecule : Molecule
  starting_molecule_id : Option Nat
  starting_molecule : Option Molecule
  starting_grid : Option (List Int)
  keywords : GOKeywords
  opt_keywords : OptKeywords
  compute_history : List HistoryEntry
  optimizations : List (Nat × GOKey)

/-- The slice of a `ServiceQueueORM` touched by the service, together with
the model of the optimization-record store (`created_opts`, `next_opt_id`)
behind `root_socket.records.optimization.add`. -/
structure ServiceOrm where
  record : GORecord
  tag : Option String
  priority : Nat
  dependencies : List ServiceDependency
  service_state : Option GridoptimizationServiceState
  created_opts : List OptimizationInput
  next_opt_id : Nat

/-- Append one stdout block to the last compute-history entry
(`compute_history[-1].get_output(stdout).append(output)`). -/
def appendLastStdout : List HistoryEntry → String → List HistoryEntry
  | [], _ => []
  | [e], out => [{ e with stdout := e.stdout ++ [out] }]
  | e :: rest, out => e :: appendLastStdout rest out

/-- Set the provenance of the last compute-history entry
(`compute_history[-1].provenance = ...`). -/
def setLastProvenance : List HistoryEntry → Provenance → List HistoryEntry
  | [], _ => []
  | [e], p => [{ e with provenance := some p }]
  | e :: rest, p => e :: setLastProvenance rest p

/-- Embedding of `GridoptimizationRecordSocket._create_state` (source
lines 374-408): build the constraint template and the dimension tuple from
the scans, pick the starting iteration from the `preoptimization` keyword,
and append a creation message to the record's stdout.  Python's
`compute_history[-1]` raises `IndexError` on an empty history.  (The
interpolated text of the output message is abbreviated; no claim concerns
its exact wording.) -/
def _create_state (go : GORecord) : Except String (GridoptimizationServiceState × GORecord) :=
  let keywords := go.keywords
  let constraint_template : List Constraint :=
    keywords.scans.map (fun scan => { ctype := scan.type, indices := scan.indices, value := none })
  let dimensions : List Int := keywords.scans.map (fun x => (x.steps.length : Int))
  let iteration : Int := if keywords.preoptimization then -2 else 0
  match go.compute_history with
  | [] => .error "IndexError: compute_history[-1] on an empty history"
  | _ =>
    .ok ({ iteration := iteration, complete := [], dimensions := dimensions,
           constraint_template := constraint_template },
         { go with compute_history := appendLastStdout go.compute_history "Created gridoptimization" })

/-- Python list indexing `l[i]` with negative-index wrap-around. -/
def pyIndex {α : Type _} (l : List α) (i : Int) : Option α :=
  if 0 ≤ i then l.get? i.toNat
  else if i.natAbs ≤ l.length then l.get? (l.length - i.natAbs)
  else none

/-- The constraint loop of `submit_optimizations` (source lines 664-674):
for each scan (position `con_num`), look up the grid index in
`scan_indices`, read the step, and fill the template constraint's `value`
with the step itself (`absolute`) or the step plus the measured starting
coordinate (`relative`).  A missing index or step is Python's
`IndexError`; template entries beyond the scans are left untouched. -/
def build_constraints (start : Molecule) :
    List Constraint → List ScanDimension → List Int → Except String (List Constraint)
  | template, [], _ => .ok template
  | [], _ :: _, _ => .error "IndexError: constraint template shorter than the scans"
  | _ :: _, _ :: _, [] => .error "IndexError: scan_indices shorter than the scans"
  | c :: template', scan :: scans', idx :: idxs =>
    match pyIndex scan.steps idx with
    | none => .error "IndexError: grid index outside the scan steps"
    | some step =>
      let value : Rat :=
        match scan.step_type with
        | StepTypeEnum.absolute => step
        | StepTypeEnum.relative => step + start.measure scan.indices
      match build_constraints start template' scans' idxs with
      | .ok cs => .ok ({ c with value := some value } :: cs)
      | .error e => .error e

/-- One pass of the `submit_optimizations` loop (source lines 643-704) for
one `(key, molecule)` entry of `next_tasks`: build the optimization input
(no added constraints for the `"preoptimization"` key, the filled
constraint template appended to the specification's `constraints.set`
otherwise), create the child optimization record, and append the
service-dependency and association rows.  `optimization.add`
(`components/records/optimization/sockets.py`, not under `src/`) is
modelled as creating a fresh record with the next id; it may in reality
dedupe to an existing record id, which changes no property proved here
(one dependency row is appended per task either way). -/
def submit_one (service_state : GridoptimizationServiceState) (orm : ServiceOrm)
    (kv : GOKey × Molecule) : Except String ServiceOrm := do
  let (key, molecule) := kv
  let go := orm.record
  let opt_input : OptimizationInput ←
    (if key = GOKey.str "preoptimization" then
      match go.starting_molecule with
      | some _ => .error "Developer error - starting molecule set when it should not be!"
      | none => .ok { molecule := molecule, constraints_set := go.opt_keywords.constraints_set }
    else
      match go.starting_molecule with
      | none => .error "Developer error - starting molecule not set when it should be!"
      | some start =>
        match key with
        | GOKey.str _ => .error "TypeError: a string key indexed as a tuple of grid indices"
        | GOKey.tup scan_indices =>
          match build_constraints start service_state.constraint_template
              go.keywords.scans scan_indices with
          | .ok constraints =>
            .ok { molecule := molecule,
                  constraints_set := go.opt_keywords.constraints_set ++ constraints }
          | .error e => .error e)
  let opt_id := orm.next_opt_id
  .ok { orm with
        record := { go with optimizations := go.optimizations ++ [(opt_id, key)] },
        dependencies := orm.dependencies ++ [{ record_id := opt_id, extras_key := key }],
        created_opts := orm.created_opts ++ [opt_input],
        next_opt_id := opt_id + 1 }

/-- Embedding of `GridoptimizationRecordSocket.submit_optimizations`
(source lines 616-704): clear the dependency list, then create one child
optimization and one dependency row per entry of `task_dict`. -/
def submit_optimizations (service_state : GridoptimizationServiceState) (orm : ServiceOrm)
    (task_dict : List (GOKey × Molecule)) : Except String ServiceOrm :=
  task_dict.foldlM (submit_one service_state) { orm with dependencies := [] }

/-- Insert a key into a duplicate-free list (models adding an element to a
Python `set`; only membership matters to the program). -/
def keyListInsert (l : List GOKey) (k : GOKey) : List GOKey :=
  if k ∈ l then l else l ++ [k]

/-- `set(a) | b` over key lists: both sides deduplicated, membership
preserved. -/
def keyListUnion (a b : List GOKey) : List GOKey :=
  b.foldl keyListInsert (a.foldl keyListInsert [])

/-- View a set of keys as grid tuples; a stray string key would make the
Python `seed[d]` arithmetic raise `TypeError`. -/
def allTups : List GOKey → Option (List (List Int))
  | [] => some []
  | GOKey.str _ :: _ => none
  | GOKey.tup t :: rest =>
    match allTups rest with
    | some ts => some (t :: ts)
    | none => none

/-- Insertion-ordered dictionary update (`d[k] = v`). -/
def dictInsert (d : List (GOKey × Molecule)) (k : GOKey) (v : Molecule) :
    List (GOKey × Molecule) :=
  if d.any (fun kv => decide (kv.1 = k)) then
    d.map (fun kv => if kv.1 = k then (k, v) else kv)
  else d ++ [(k, v)]

/-- Dictionary lookup (`d[k]`, `none` for Python's `KeyError`). -/
def dictFind (d : List (GOKey × Molecule)) (k : GOKey) : Option Molecule :=
  (d.find? (fun kv => decide (kv.1 = k))).map Prod.snd

/-- The per-iteration dispatch of `iterate_service` (source lines
520-594): from the loaded service state and the service row, compute the
mutated state, the mutated record, the `next_tasks` dictionary and the
output message.

* `iteration = -2`: one unconstrained task keyed `"preoptimization"`
  carrying the initial molecule; iteration becomes `-1`.
* `iteration = -1`: exactly one completed dependency is consumed; its
  final molecule becomes the starting molecule, the starting grid is
  computed, and the single starting-point task is emitted; iteration
  becomes `1` (the normal `0` iteration is skipped).
* `iteration = 0`: the initial molecule becomes the starting molecule and
  the single starting-point task is emitted; iteration becomes `1`.
* otherwise: the completed dependencies become the new seeds, the
  `complete` set is extended, and `expand_ndimensional_grid` chooses the
  next wave, each new point taking the final molecule of the seed it came
  from. -/
def compute_next_tasks (lookup : Nat → OptRecord)
    (service_state : GridoptimizationServiceState) (orm : ServiceOrm) :
    Except String (GridoptimizationServiceState × GORecord × List (GOKey × Molecule) × String) :=
  let go := orm.record
  if service_state.iteration = -2 then
    .ok ({ service_state with iteration := -1 }, go,
         [(GOKey.str "preoptimization", go.initial_molecule)],
         "Starting preoptimization")
  else if service_state.iteration = -1 then
    match orm.dependencies with
    | [dep] =>
      let dep_record := lookup dep.record_id
      let starting_molecule := dep_record.final_molecule
      let starting_grid := calculate_starting_grid go.keywords.scans starting_molecule
      let go' := { go with
        starting_molecule_id := some dep_record.final_molecule_id,
        starting_molecule := some starting_molecule,
        starting_grid := some starting_grid }
      .ok ({ service_state with iteration := 1 }, go',
           [(GOKey.tup starting_grid, starting_molecule)],
           "Found finished preoptimization. Starting normal iterations")
    | deps => .error s!"Expected one complete task for preoptimization, but got {deps.length}"
  else if service_state.iteration = 0 then
    let starting_molecule := go.initial_molecule
    let starting_grid := calculate_starting_grid go.keywords.scans starting_molecule
    let go' := { go with
      starting_molecule_id := some go.initial_molecule_id,
      starting_molecule := some starting_molecule,
      starting_grid := some starting_grid }
    .ok ({ service_state with iteration := 1 }, go',
         [(GOKey.tup starting_grid, starting_molecule)],
         "Starting first iterations")
  else
    let complete_deps := orm.dependencies
    let molecule_map : List (GOKey × Molecule) :=
      complete_deps.map (fun dep => (dep.extras_key, (lookup dep.record_id).final_molecule))
    let complete_seeds : List GOKey :=
      complete_deps.foldl (fun acc dep => keyListInsert acc dep.extras_key) []
    let new_complete := keyListUnion service_state.complete complete_seeds
    let service_state' := { service_state with complete := new_complete }
    match allTups complete_seeds with
    | none => .error "TypeError: a string key among the grid seeds"
    | some seed_tups =>
      let new_points_list :=
        expand_ndimensional_grid service_state'.dimensions seed_tups service_state'.complete
      match new_points_list.foldlM
          (fun acc p =>
            match dictFind molecule_map (GOKey.tup p.1) with
            | some mol => Except.ok (dictInsert acc (GOKey.tup p.2) mol)
            | none => Except.error "KeyError: seed not among the completed dependencies")
          ([] : List (GOKey × Molecule)) with
      | .ok next_tasks =>
        .ok (service_state', go, next_tasks, s!"Found {complete_deps.length} optimizations")
      | .error e => .error e

/-- The status dispatch at the top of `iterate_service` (source lines
497-518): any status other than `waiting`/`running` is a programmer error;
on the first call (`waiting`) the record becomes `running`, the service
state is freshly created and provenance is stamped on the latest
compute-history entry; on later calls (`running`) the state is loaded from
the persisted `service_state` column (a missing checkpoint would make the
Python constructor raise). -/
def iterate_load (orm : ServiceOrm) :
    Except String (GridoptimizationServiceState × ServiceOrm) :=
  let go := orm.record
  if go.status = RecordStatusEnum.running ∨ go.status = RecordStatusEnum.waiting then
    if go.status = RecordStatusEnum.waiting then
      match _create_state { go with status := RecordStatusEnum.running } with
      | .ok (st, go2) =>
        .ok (st, { orm with record :=
          { go2 with compute_history := setLastProvenance go2.compute_history go_provenance } })
      | .error e => .error e
    else
      match orm.service_state with
      | some st => .ok (st, orm)
      | none => .error "TypeError: missing service_state checkpoint"
  else
    .error "cannot iterate!"

/-- Embedding of `GridoptimizationRecordSocket.iterate_service` (source
lines 491-614): load or create the service state, run the per-iteration
dispatch, submit the next wave when it is nonempty, append the output to
the record's stdout, persist the mutated service state, and report whether
the service has finished (`len(next_tasks) == 0`). -/
def iterate_service (lookup : Nat → OptRecord) (orm : ServiceOrm) :
    Except String (ServiceOrm × Bool) := do
  let (service_state, orm1) ← iterate_load orm
  let (st2, rec2, next_tasks, output) ← compute_next_tasks lookup service_state orm1
  let orm2 := { orm1 with record := rec2 }
  let (orm3, output2) ←
    (if 0 < next_tasks.length then
      (submit_optimizations st2 orm2 next_tasks).map
        (fun o => (o, output ++ "Submitted new optimizations"))
    else
      Except.ok (orm2, output ++ "Grid optimization finished successfully!"))
  let orm4 := { orm3 with record :=
    { orm3.record with compute_history := appendLastStdout orm3.record.compute_history output2 } }
  .ok ({ orm4 with service_state := some st2 }, decide (next_tasks.length = 0))

theorem exceptBind_ok {ε α β : Type _} {x : Except ε α} {f : α → Except ε β} {b : β}
    (h : (x >>= f) = Except.ok b) : ∃ a, x = Except.ok a ∧ f a = Except.ok b := by
  cases x with
  | ok a => exact ⟨a, rfl, h⟩
  | error e => simp [Bind.bind, Except.bind] at h

theorem submit_one_spec {st : GridoptimizationServiceState} {orm : ServiceOrm}
    {kv : GOKey × Molecule} {orm'' : ServiceOrm}
    (h : submit_one st orm kv = Except.ok orm'') :
    orm''.dependencies = orm.dependencies ++
      [{ record_id := orm.next_opt_id, extras_key := kv.1 }] ∧
    orm''.created_opts.length = orm.created_opts.length + 1 ∧
    orm''.service_state = orm.service_state ∧
    orm''.record.status = orm.record.status ∧
    orm''.record.compute_history = orm.record.compute_history := by
  obtain ⟨key, molecule⟩ := kv
  simp only [submit_one] at h
  obtain ⟨oi, -, hrest⟩ := exceptBind_ok h
  simp only [Except.ok.injEq] at hrest
  subst hrest
  simp

theorem submit_fold_spec : ∀ (tasks : List (GOKey × Molecule))
    (st : GridoptimizationServiceState) (orm orm' : ServiceOrm),
    tasks.foldlM (submit_one st) orm = Except.ok orm' →
    orm'.dependencies.map (fun d => d.extras_key) =
      orm.dependencies.map (fun d => d.extras_key) ++ tasks.map Prod.fst ∧
    orm'.dependencies.length = orm.dependencies.length + tasks.length ∧
    orm'.created_opts.length = orm.created_opts.length + tasks.length ∧
    orm'.service_state = orm.service_state ∧
    orm'.record.status = orm.record.status ∧
    orm'.record.compute_history = orm.record.compute_history := by
  intro tasks
  induction tasks with
  | nil =>
    intro st orm orm' h
    simp only [List.foldlM_nil, pure, Except.pure, Except.ok.injEq] at h
    subst h
    simp
  | cons kv tasks ih =>
    intro st orm orm' h
    rw [List.foldlM_cons] at h
    obtain ⟨o, h1, h2⟩ := exceptBind_ok h
    obtain ⟨hd, hc, hs, hst, hh⟩ := submit_one_spec h1
    obtain ⟨ihd, ihl, ihc, ihs, ihst, ihh⟩ := ih st o orm' h2
    refine ⟨?_, ?_, ?_, ?_, ?_, ?_⟩
    · rw [ihd, hd]
      simp
    · have hlen := congrArg List.length hd
      simp only [List.length_append, List.length_cons, List.length_nil] at hlen
      simp only [List.length_cons]
      omega
    · rw [ihc, hc]
      simp only [List.length_cons]
      omega
    · rw [ihs, hs]
    · rw [ihst, hst]
    · rw [ihh, hh]

/-- `submit_optimizations` replaces the dependency list with exactly one
dependency per task, keyed by the task key, and creates one child
optimization per task; the persisted checkpoint, the record status and the
compute history are untouched. -/
theorem submit_optimizations_spec {st : GridoptimizationServiceState} {orm orm' : ServiceOrm}
    {tasks : List (GOKey × Molecule)}
    (h : submit_optimizations st orm tasks = Except.ok orm') :
    orm'.dependencies.map (fun d => d.extras_key) = tasks.map Prod.fst ∧
    orm'.dependencies.length = tasks.length ∧
    orm'.created_opts.length = orm.created_opts.length + tasks.length ∧
    orm'.service_state = orm.service_state ∧
    orm'.record.status = orm.record.status ∧
    orm'.record.compute_history = orm.record.compute_history := by
  obtain ⟨hd, hl, hc, hs, hst, hh⟩ := submit_fold_spec tasks st _ orm' h
  simp only [List.map_nil, List.nil_append, List.length_nil, Nat.zero_add] at hd hl hc hs hst hh
  exact ⟨hd, by omega, hc, hs, hst, hh⟩

theorem appendLastStdout_getLast_prov : ∀ (hist : List HistoryEntry) (out : String),
    ((appendLastStdout hist out).getLast?).map (fun e => e.provenance) =
      (hist.getLast?).map (fun e => e.provenance) := by
  intro hist
  induction hist with
  | nil => intro out; rfl
  | cons e rest ih =>
    intro out
    cases rest with
    | nil => rfl
    | cons e2 rest2 =>
      show ((e :: appendLastStdout (e2 :: rest2) out).getLast?).map _ = _
      rw [List.getLast?_cons_cons]
      have hne : appendLastStdout (e2 :: rest2) out ≠ [] := by
        cases rest2 <;> simp [appendLastStdout]
      obtain ⟨x, xs, hx⟩ := List.exists_cons_of_ne_nil hne
      rw [hx, List.getLast?_cons_cons, ← hx, ih out]

theorem setLastProvenance_getLast : ∀ (hist : List HistoryEntry) (p : Provenance),
    hist ≠ [] → ∃ e, (setLastProvenance hist p).getLast? = some e ∧ e.provenance = some p := by
  intro hist
  induction hist with
  | nil => intro p h; exact absurd rfl h
  | cons e rest ih =>
    intro p _
    cases rest with
    | nil => exact ⟨{ e with provenance := some p }, rfl, rfl⟩
    | cons e2 rest2 =>
      obtain ⟨x, hx, hpx⟩ := ih p (by simp)
      refine ⟨x, ?_, hpx⟩
      show ((e :: setLastProvenance (e2 :: rest2) p).getLast?) = some x
      have hne : setLastProvenance (e2 :: rest2) p ≠ [] := by
        cases rest2 <;> simp [setLastProvenance]
      obtain ⟨y, ys, hy⟩ := List.exists_cons_of_ne_nil hne
      rw [hy, List.getLast?_cons_cons, ← hy]
      exact hx

/-- The per-iteration dispatch never changes the record's status or its
compute history (it only assigns the starting molecule and grid). -/
theorem compute_next_tasks_record_fields {lookup : Nat → OptRecord}
    {st : GridoptimizationServiceState} {orm : ServiceOrm}
    {st2 : GridoptimizationServiceState} {rec2 : GORecord}
    {tasks : List (GOKey × Molecule)} {out : String}
    (h : compute_next_tasks lookup st orm = Except.ok (st2, rec2, tasks, out)) :
    rec2.status = orm.record.status ∧ rec2.compute_history = orm.record.compute_history := by
  simp only [compute_next_tasks] at h
  split_ifs at h with h1 h2 h3
  · simp only [Except.ok.injEq, Prod.mk.injEq] at h
    obtain ⟨-, hrec, -⟩ := h
    subst hrec
    exact ⟨rfl, rfl⟩
  · split at h
    · simp only [Except.ok.injEq, Prod.mk.injEq] at h
      obtain ⟨-, hrec, -⟩ := h
      subst hrec
      exact ⟨rfl, rfl⟩
    · simp at h
  · simp only [Except.ok.injEq, Prod.mk.injEq] at h
    obtain ⟨-, hrec, -⟩ := h
    subst hrec
    exact ⟨rfl, rfl⟩
  · split at h
    · simp at h
    · split at h
      · simp only [Except.ok.injEq, Prod.mk.injEq] at h
        obtain ⟨-, hrec, -⟩ := h
        subst hrec
        exact ⟨rfl, rfl⟩
      · simp at h

/-- C3: `iterate_service` reports `done = true` exactly when the
per-iteration dispatch produced no further tasks; whenever at least one
new task is produced it submits the new child optimizations, replaces the
service's dependencies with one dependency per new task (keyed by the
task), persists the mutated service state, and returns `done = false`. -/
theorem iterate_service_done_iff (lookup : Nat → OptRecord) (orm orm' : ServiceOrm) (done : Bool)
    (h : iterate_service lookup orm = Except.ok (orm', done)) :
    ∃ st0 orm1 st2 rec2 tasks out,
      iterate_load orm = Except.ok (st0, orm1) ∧
      compute_next_tasks lookup st0 orm1 = Except.ok (st2, rec2, tasks, out) ∧
      done = decide (tasks.length = 0) ∧
      orm'.service_state = some st2 ∧
      (tasks.length = 0 → done = true ∧ orm'.dependencies = orm1.dependencies) ∧
      (0 < tasks.length → done = false ∧
        orm'.dependencies.length = tasks.length ∧
        orm'.dependencies.map (fun d => d.extras_key) = tasks.map Prod.fst ∧
        orm'.created_opts.length = orm1.created_opts.length + tasks.length) := by
  simp only [iterate_service] at h
  obtain ⟨⟨st0, orm1⟩, hload, h⟩ := exceptBind_ok h
  obtain ⟨⟨st2, rec2, tasks, out⟩, hnext, h⟩ := exceptBind_ok h
  obtain ⟨⟨orm3, output2⟩, hsub, h⟩ := exceptBind_ok h
  dsimp only at hsub
  simp only [Except.ok.injEq, Prod.mk.injEq] at h
  obtain ⟨horm, hdone⟩ := h
  subst horm
  subst hdone
  refine ⟨st0, orm1, st2, rec2, tasks, out, hload, hnext, rfl, rfl, ?_, ?_⟩
  · intro hzero
    rw [if_neg (by omega)] at hsub
    simp only [Except.ok.injEq, Prod.mk.injEq] at hsub
    obtain ⟨horm3, -⟩ := hsub
    subst horm3
    simp [hzero]
  · intro hpos
    rw [if_pos hpos] at hsub
    cases hs2 : submit_optimizations st2 { orm1 with record := rec2 } tasks with
    | error e => rw [hs2] at hsub; simp [Except.map] at hsub
    | ok o =>
      rw [hs2] at hsub
      simp only [Except.map, Except.ok.injEq, Prod.mk.injEq] at hsub
      obtain ⟨horm3, -⟩ := hsub
      subst horm3
      obtain ⟨hkeys, hlen, hcreated, -, -, -⟩ := submit_optimizations_spec hs2
      refine ⟨by rw [decide_eq_false_iff_not]; omega, by simpa using hlen,
        by simpa using hkeys, ?_⟩
      have hco : ({ orm1 with record := rec2 } : ServiceOrm).created_opts = orm1.created_opts := rfl
      rw [hco] at hcreated
      simpa using hcreated

/-- Inversion of a successful `iterate_service` run into its pipeline
stages. -/
theorem iterate_service_ok_inv {lookup : Nat → OptRecord} {orm orm' : ServiceOrm} {done : Bool}
    (h : iterate_service lookup orm = Except.ok (orm', done)) :
    ∃ st0 orm1 st2 rec2 tasks out orm3 output2,
      iterate_load orm = Except.ok (st0, orm1) ∧
      compute_next_tasks lookup st0 orm1 = Except.ok (st2, rec2, tasks, out) ∧
      (0 < tasks.length →
        submit_optimizations st2 { orm1 with record := rec2 } tasks = Except.ok orm3) ∧
      (¬0 < tasks.length → orm3 = { orm1 with record := rec2 }) ∧
      orm' = { orm3 with
        record := { orm3.record with
          compute_history := appendLastStdout orm3.record.compute_history output2 },
        service_state := some st2 } ∧
      done = decide (tasks.length = 0) := by
  simp only [iterate_service] at h
  obtain ⟨⟨st0, orm1⟩, hload, h⟩ := exceptBind_ok h
  obtain ⟨⟨st2, rec2, tasks, out⟩, hnext, h⟩ := exceptBind_ok h
  obtain ⟨⟨orm3, output2⟩, hsub, h⟩ := exceptBind_ok h
  dsimp only at hsub
  simp only [Except.ok.injEq, Prod.mk.injEq] at h
  obtain ⟨horm, hdone⟩ := h
  refine ⟨st0, orm1, st2, rec2, tasks, out, orm3, output2, hload, hnext, ?_, ?_, ?_, hdone.symm⟩
  · intro hpos
    rw [if_pos hpos] at hsub
    cases hs2 : submit_optimizations st2 { orm1 with record := rec2 } tasks with
    | error e => rw [hs2] at hsub; simp [Except.map] at hsub
    | ok o =>
      rw [hs2] at hsub
      simp only [Except.map, Except.ok.injEq, Prod.mk.injEq] at hsub
      rw [hsub.1]
  · intro hneg
    rw [if_neg hneg] at hsub
    simp only [Except.ok.injEq, Prod.mk.injEq] at hsub
    exact hsub.1.symm
  · exact horm.symm

theorem _create_state_ok {go : GORecord} {st : GridoptimizationServiceState} {go2 : GORecord}
    (h : _create_state go = Except.ok (st, go2)) :
    go2.status = go.status ∧
    go2.compute_history = appendLastStdout go.compute_history "Created gridoptimization" ∧
    go.compute_history ≠ [] ∧
    st.iteration = (if go.keywords.preoptimization then -2 else 0) := by
  simp only [_create_state] at h
  split at h
  · simp at h
  · simp only [Except.ok.injEq, Prod.mk.injEq] at h
    obtain ⟨hst, hgo2⟩ := h
    subst hgo2
    refine ⟨rfl, rfl, ?_, ?_⟩
    · intro hnil
      simp [hnil] at *
    · rw [← hst]

/-- C6: at `iteration = -1`, when the number of completed dependencies is
not exactly one, `iterate_service` raises the invariant-violation
(developer) error; the whole call returns an error, so no mutated state is
handed back and the surrounding transaction aborts with the record and the
iteration counter unchanged. -/
theorem iterate_service_preopt_dep_error (lookup : Nat → OptRecord) (orm : ServiceOrm)
    (st : GridoptimizationServiceState)
    (hr : orm.record.status = RecordStatusEnum.running)
    (hsome : orm.service_state = some st)
    (hiter : st.iteration = -1)
    (hdeps : orm.dependencies.length ≠ 1) :
    ∃ msg, iterate_service lookup orm = Except.error msg := by
  have hload : iterate_load orm = Except.ok (st, orm) := by
    simp [iterate_load, hr, hsome]
  have hcnt : ∃ m, compute_next_tasks lookup st orm = Except.error m := by
    simp only [compute_next_tasks]
    rw [if_neg (by rw [hiter]; decide), if_pos hiter]
    cases horm : orm.dependencies with
    | nil => exact ⟨_, rfl⟩
    | cons d rest =>
      cases rest with
      | nil => rw [horm] at hdeps; simp at hdeps
      | cons d2 r2 => exact ⟨_, rfl⟩
  obtain ⟨m, hm⟩ := hcnt
  refine ⟨m, ?_⟩
  simp [iterate_service, hload, hm, Bind.bind, Except.bind]

theorem appendLastStdout_ne_nil {hist : List HistoryEntry} (h : hist ≠ []) (out : String) :
    appendLastStdout hist out ≠ [] := by
  cases hist with
  | nil => exact absurd rfl h
  | cons e rest => cases rest <;> simp [appendLastStdout]

/-- C5: on the first `iterate_service` call (record status `waiting`) the
record is set to `running` and provenance is stamped on the latest
compute-history entry; on a later call (status `running`) the service
state is instead loaded from the persisted `service_state` checkpoint (a
missing checkpoint is an error); a call with any other status raises. -/
theorem iterate_service_status_dispatch (lookup : Nat → OptRecord) (orm : ServiceOrm) :
    (orm.record.status = RecordStatusEnum.waiting →
      ∀ orm' done, iterate_service lookup orm = Except.ok (orm', done) →
        orm'.record.status = RecordStatusEnum.running ∧
        ∃ e, orm'.record.compute_history.getLast? = some e ∧
          e.provenance = some go_provenance) ∧
    (orm.record.status = RecordStatusEnum.running →
      (orm.service_state = none → ∃ msg, iterate_service lookup orm = Except.error msg) ∧
      (∀ st, orm.service_state = some st → iterate_load orm = Except.ok (st, orm))) ∧
    (orm.record.status ≠ RecordStatusEnum.waiting →
      orm.record.status ≠ RecordStatusEnum.running →
      ∃ msg, iterate_service lookup orm = Except.error msg) := by
  refine ⟨?_, ?_, ?_⟩
  · intro hw orm' done h
    obtain ⟨st0, orm1, st2, rec2, tasks, out, orm3, output2, hload, hnext, hsubpos, hsubneg,
      horm, -⟩ := iterate_service_ok_inv h
    -- dissect the waiting branch of iterate_load
    rw [iterate_load] at hload
    rw [if_pos (Or.inr hw), if_pos hw] at hload
    cases hcs : _create_state { orm.record with status := RecordStatusEnum.running } with
    | error e => rw [hcs] at hload; simp at hload
    | ok p =>
      obtain ⟨stX, go2⟩ := p
      rw [hcs] at hload
      simp only [Except.ok.injEq, Prod.mk.injEq] at hload
      obtain ⟨-, horm1⟩ := hload
      obtain ⟨hstat2, hhist2, hne, -⟩ := _create_state_ok hcs
      -- the record after iterate_load
      have horm1_status : orm1.record.status = RecordStatusEnum.running := by
        rw [← horm1]
        exact hstat2
      have horm1_hist : orm1.record.compute_history =
          setLastProvenance go2.compute_history go_provenance := by
        rw [← horm1]
      -- provenance is stamped on the (nonempty) last history entry
      have hgo2ne : go2.compute_history ≠ [] := by
        rw [hhist2]
        exact appendLastStdout_ne_nil hne _
      obtain ⟨eP, heP, hePprov⟩ := setLastProvenance_getLast go2.compute_history go_provenance hgo2ne
      -- compute_next_tasks and submit keep status and history
      obtain ⟨hrecstat, hrechist⟩ := compute_next_tasks_record_fields hnext
      have horm3_status : orm3.record.status = RecordStatusEnum.running ∧
          orm3.record.compute_history = orm1.record.compute_history := by
        by_cases hpos : 0 < tasks.length
        · obtain ⟨-, -, -, -, hst3, hh3⟩ := submit_optimizations_spec (hsubpos hpos)
          constructor
          · rw [hst3]
            show rec2.status = RecordStatusEnum.running
            rw [hrecstat, horm1_status]
          · rw [hh3]
            exact hrechist
        · rw [hsubneg hpos]
          constructor
          · show rec2.status = RecordStatusEnum.running
            rw [hrecstat, horm1_status]
          · exact hrechist
      constructor
      · rw [horm]
        exact horm3_status.1
      · -- the last entry of the final history still carries the provenance
        have hfinal : ((appendLastStdout orm3.record.compute_history output2).getLast?).map
            (fun e => e.provenance) = some (some go_provenance) := by
          rw [appendLastStdout_getLast_prov, horm3_status.2, horm1_hist, heP]
          simp [hePprov]
        rw [horm]
        show ∃ e, (appendLastStdout orm3.record.compute_history output2).getLast? = some e ∧
          e.provenance = some go_provenance
        cases hlast : (appendLastStdout orm3.record.compute_history output2).getLast? with
        | none => rw [hlast] at hfinal; simp at hfinal
        | some e2 =>
          rw [hlast] at hfinal
          simp only [Option.map_some', Option.some.injEq] at hfinal
          exact ⟨e2, rfl, hfinal⟩
  · intro hr
    constructor
    · intro hnone
      have hle : iterate_load orm = Except.error "TypeError: missing service_state checkpoint" := by
        simp [iterate_load, hr, hnone]
      exact ⟨"TypeError: missing service_state checkpoint",
        by simp [iterate_service, hle, Bind.bind, Except.bind]⟩
    · intro st hsome
      simp [iterate_load, hr, hsome]
  · intro hnw hnr
    have hle : iterate_load orm = Except.error "cannot iterate!" := by
      simp [iterate_load, hnw, hnr]
    exact ⟨"cannot iterate!", by simp [iterate_service, hle, Bind.bind, Except.bind]⟩

/-- C4: the service state is created with `iteration = -2` when the
specification's `preoptimization` keyword is enabled and with
`iteration = 0` otherwise; at `iteration = -2` the driver emits exactly
one task, keyed `"preoptimization"`, carrying the initial molecule with no
constraints beyond the base specification's (none at all when the base has
none), and advances the iteration to `-1`. -/
theorem gridoptimization_preoptimization_start (go : GORecord) (lookup : Nat → OptRecord)
    (orm : ServiceOrm) :
    (∀ st go', _create_state go = Except.ok (st, go') →
      st.iteration = (if go.keywords.preoptimization then -2 else 0)) ∧
    (∀ st orm' done,
      orm.record.status = RecordStatusEnum.running →
      orm.service_state = some st →
      st.iteration = -2 →
      iterate_service lookup orm = Except.ok (orm', done) →
      done = false ∧
      orm'.dependencies.map (fun d => d.extras_key) = [GOKey.str "preoptimization"] ∧
      orm'.created_opts = orm.created_opts ++
        [{ molecule := orm.record.initial_molecule,
           constraints_set := orm.record.opt_keywords.constraints_set }] ∧
      ∃ st2, orm'.service_state = some st2 ∧ st2.iteration = -1) := by
  constructor
  · intro st go' h
    exact (_create_state_ok h).2.2.2
  · intro st orm' done hr hsome hiter h
    have hload : iterate_load orm = Except.ok (st, orm) := by
      simp [iterate_load, hr, hsome]
    have hnext : compute_next_tasks lookup st orm = Except.ok
        ({ st with iteration := -1 }, orm.record,
         [(GOKey.str "preoptimization", orm.record.initial_molecule)],
         "Starting preoptimization") := by
      simp only [compute_next_tasks]
      rw [if_pos hiter]
    obtain ⟨st0, orm1, st2, rec2, tasks, out, orm3, output2, hload', hnext', hsubpos, hsubneg,
      horm, hdone⟩ := iterate_service_ok_inv h
    rw [hload] at hload'
    simp only [Except.ok.injEq, Prod.mk.injEq] at hload'
    obtain ⟨hst0, horm1⟩ := hload'
    subst hst0
    subst horm1
    rw [hnext] at hnext'
    simp only [Except.ok.injEq, Prod.mk.injEq] at hnext'
    obtain ⟨hst2, hrec2, htasks, -⟩ := hnext'
    subst hst2
    subst hrec2
    subst htasks
    have hsub := hsubpos (by simp)
    cases hsm : orm.record.starting_molecule with
    | some m0 =>
      simp [submit_optimizations, submit_one, List.foldlM_cons, hsm,
        Bind.bind, Except.bind] at hsub
    | none =>
      simp only [submit_optimizations, List.foldlM_cons, List.foldlM_nil, submit_one, hsm,
        Bind.bind, Except.bind, pure, Except.pure, if_pos, eq_self_iff_true, if_true,
        Except.ok.injEq] at hsub
      refine ⟨by simp [hdone], ?_, ?_, ?_⟩
      · rw [horm, ← hsub]
        rfl
      · rw [horm, ← hsub]
      · exact ⟨{ st with iteration := -1 }, by rw [horm], rfl⟩

/-- A concrete molecule for the demonstration runs. -/
def demoMol : Molecule := { measureFn := fun _ => 2 }

def demoScan : ScanDimension :=
  { type := "distance", indices := [0, 1], steps := [1, 3], step_type := StepTypeEnum.absolute }

def demoRecord : GORecord :=
  { status := RecordStatusEnum.running, initial_molecule_id := 7, initial_molecule := demoMol,
    starting_molecule_id := none, starting_molecule := none, starting_grid := none,
    keywords := { scans := [demoScan], preoptimization := true },
    opt_keywords := { constraints_set := [] },
    compute_history := [{ provenance := none, stdout := [] }], optimizations := [] }

def demoState : GridoptimizationServiceState :=
  { iteration := -2, complete := [], dimensions := [2],
    constraint_template := [{ ctype := "distance", indices := [0, 1], value := none }] }

def demoOrm : ServiceOrm :=
  { record := demoRecord, tag := some "tag", priority := 1, dependencies := [],
    service_state := some demoState, created_opts := [], next_opt_id := 0 }

def demoLookup : Nat → OptRecord := fun _ => { final_molecule_id := 99, final_molecule := demoMol }

/-- The result of the demonstration run at `iteration = -2`. -/
def c3demo : ServiceOrm × Bool :=
  ((iterate_service demoLookup demoOrm).toOption).getD (demoOrm, true)

theorem c3run : iterate_service demoLookup demoOrm = Except.ok c3demo := rfl

/-- Witness for C3 at the demonstration run (a preoptimization wave of one
task). -/
theorem iterate_service_done_iff_witness :
    ∃ st0 orm1 st2 rec2 tasks out,
      iterate_load demoOrm = Except.ok (st0, orm1) ∧
      compute_next_tasks demoLookup st0 orm1 = Except.ok (st2, rec2, tasks, out) ∧
      c3demo.2 = decide (tasks.length = 0) ∧
      c3demo.1.service_state = some st2 ∧
      (tasks.length = 0 → c3demo.2 = true ∧ c3demo.1.dependencies = orm1.dependencies) ∧
      (0 < tasks.length → c3demo.2 = false ∧
        c3demo.1.dependencies.length = tasks.length ∧
        c3demo.1.dependencies.map (fun d => d.extras_key) = tasks.map Prod.fst ∧
        c3demo.1.created_opts.length = orm1.created_opts.length + tasks.length) :=
  iterate_service_done_iff demoLookup demoOrm c3demo.1 c3demo.2 c3run

/-- Witness for C4 at the demonstration run. -/
theorem gridoptimization_preoptimization_start_witness :
    c3demo.2 = false ∧
    c3demo.1.dependencies.map (fun d => d.extras_key) = [GOKey.str "preoptimization"] ∧
    c3demo.1.created_opts = demoOrm.created_opts ++
      [{ molecule := demoOrm.record.initial_molecule,
         constraints_set := demoOrm.record.opt_keywords.constraints_set }] ∧
    (∃ st2, c3demo.1.service_state = some st2 ∧ st2.iteration = -1) :=
  (gridoptimization_preoptimization_start demoRecord demoLookup demoOrm).2
    demoState c3demo.1 c3demo.2 rfl rfl rfl c3run

def recWait : GORecord := { demoRecord with status := RecordStatusEnum.waiting }

def ormWait : ServiceOrm :=
  { demoOrm with record := recWait, service_state := none }

def ormNone : ServiceOrm := { demoOrm with service_state := none }

def recBad : GORecord := { demoRecord with status := RecordStatusEnum.complete }

def ormBad : ServiceOrm := { demoOrm with record := recBad }

/-- The result of the demonstration run from the `waiting` status. -/
def c5demo : ServiceOrm × Bool :=
  ((iterate_service demoLookup ormWait).toOption).getD (ormWait, true)

theorem c5run : iterate_service demoLookup ormWait = Except.ok c5demo := rfl

/-- Witness for C5: a first call from `waiting`, a `running` call with a
missing checkpoint, a `running` call with a checkpoint, and a call with a
finished record. -/
theorem iterate_service_status_dispatch_witness :
    (c5demo.1.record.status = RecordStatusEnum.running ∧
      ∃ e, c5demo.1.record.compute_history.getLast? = some e ∧
        e.provenance = some go_provenance) ∧
    (∃ msg, iterate_service demoLookup ormNone = Except.error msg) ∧
    iterate_load demoOrm = Except.ok (demoState, demoOrm) ∧
    (∃ msg, iterate_service demoLookup ormBad = Except.error msg) :=
  ⟨(iterate_service_status_dispatch demoLookup ormWait).1 rfl c5demo.1 c5demo.2 c5run,
   ((iterate_service_status_dispatch demoLookup ormNone).2.1 rfl).1 rfl,
   ((iterate_service_status_dispatch demoLookup demoOrm).2.1 rfl).2 demoState rfl,
   (iterate_service_status_dispatch demoLookup ormBad).2.2 (by decide) (by decide)⟩

def demoStateM1 : GridoptimizationServiceState := { demoState with iteration := -1 }

def ormC6 : ServiceOrm := { demoOrm with service_state := some demoStateM1 }

/-- Witness for C6: a `running` service at `iteration = -1` with zero
completed dependencies errors out. -/
theorem iterate_service_preopt_dep_error_witness :
    ∃ msg, iterate_service demoLookup ormC6 = Except.error msg :=
  iterate_service_preopt_dep_error demoLookup ormC6 demoStateM1 rfl rfl rfl (by decide)

/-- Correctness of the argmin scanning loop: starting from a candidate
`best` (at overall position `best`, value `bestVal`), the result is either
the unchanged candidate (and nothing ahead beats it strictly) or the
overall position of a strictly better element that is a least-index
minimizer of the remainder. -/
theorem argminAbsDiffGo_spec (m : Rat) : ∀ (xs : List Rat) (idx best : Nat) (bestVal : Rat),
    (argminAbsDiffGo m xs idx best bestVal = best ∧
      ∀ k, k < xs.length → bestVal ≤ |xs.getD k 0 - m|) ∨
    (∃ k, k < xs.length ∧ argminAbsDiffGo m xs idx best bestVal = idx + k ∧
      |xs.getD k 0 - m| < bestVal ∧
      (∀ j, j < xs.length → |xs.getD k 0 - m| ≤ |xs.getD j 0 - m|) ∧
      (∀ j, j < k → |xs.getD k 0 - m| < |xs.getD j 0 - m|)) := by
  intro xs
  induction xs with
  | nil =>
    intro idx best bestVal
    left
    exact ⟨rfl, fun k hk => absurd hk (by simp)⟩
  | cons x xs ih =>
    intro idx best bestVal
    by_cases hx : |x - m| < bestVal
    · rcases ih (idx + 1) idx |x - m| with ⟨hres, hall⟩ | ⟨k, hk, hres, hlt, hall, hfirst⟩
      · right
        refine ⟨0, by simp, ?_, hx, ?_, ?_⟩
        · simp only [argminAbsDiffGo, if_pos hx]
          rw [hres]
          omega
        · intro j hj
          cases j with
          | zero => simp
          | succ j' =>
            simp only [List.getD_cons_succ, List.getD_cons_zero]
            exact hall j' (by simpa using hj)
        · intro j hj
          omega
      · right
        refine ⟨k + 1, by simpa using hk, ?_, ?_, ?_, ?_⟩
        · simp only [argminAbsDiffGo, if_pos hx]
          rw [hres]
          omega
        · simp only [List.getD_cons_succ]
          exact lt_trans hlt hx
        · intro j hj
          cases j with
          | zero =>
            simp only [List.getD_cons_succ, List.getD_cons_zero]
            exact le_of_lt hlt
          | succ j' =>
            simp only [List.getD_cons_succ]
            exact hall j' (by simpa using hj)
        · intro j hj
          cases j with
          | zero =>
            simp only [List.getD_cons_succ, List.getD_cons_zero]
            exact hlt
          | succ j' =>
            simp only [List.getD_cons_succ]
            exact hfirst j' (by omega)
    · rcases ih (idx + 1) best bestVal with ⟨hres, hall⟩ | ⟨k, hk, hres, hlt, hall, hfirst⟩
      · left
        refine ⟨by simp only [argminAbsDiffGo, if_neg hx, hres], ?_⟩
        intro k hk
        cases k with
        | zero =>
          simp only [List.getD_cons_zero]
          exact not_lt.mp hx
        | succ k' =>
          simp only [List.getD_cons_succ]
          exact hall k' (by simpa using hk)
      · right
        refine ⟨k + 1, by simpa using hk, ?_, ?_, ?_, ?_⟩
        · simp only [argminAbsDiffGo, if_neg hx]
          rw [hres]
          omega
        · simp only [List.getD_cons_succ]
          exact hlt
        · intro j hj
          cases j with
          | zero =>
            simp only [List.getD_cons_succ, List.getD_cons_zero]
            have hb : bestVal ≤ |x - m| := not_lt.mp hx
            exact le_trans (le_of_lt hlt) hb
          | succ j' =>
            simp only [List.getD_cons_succ]
            exact hall j' (by simpa using hj)
        · intro j hj
          cases j with
          | zero =>
            simp only [List.getD_cons_succ, List.getD_cons_zero]
            have hb : bestVal ≤ |x - m| := not_lt.mp hx
            exact lt_of_lt_of_le hlt hb
          | succ j' =>
            simp only [List.getD_cons_succ]
            exact hfirst j' (by omega)

/-- `argminAbsDiff` returns the least index attaining the minimal absolute
difference (first-occurrence semantics, as `np.argmin`). -/
theorem argminAbsDiff_spec (steps : List Rat) (m : Rat) (hne : steps ≠ []) :
    argminAbsDiff steps m < steps.length ∧
    (∀ j, j < steps.length →
      |steps.getD (argminAbsDiff steps m) 0 - m| ≤ |steps.getD j 0 - m|) ∧
    (∀ j, j < argminAbsDiff steps m →
      |steps.getD (argminAbsDiff steps m) 0 - m| < |steps.getD j 0 - m|) := by
  cases steps with
  | nil => exact absurd rfl hne
  | cons x xs =>
    have hdef : argminAbsDiff (x :: xs) m = argminAbsDiffGo m xs 1 0 |x - m| := rfl
    rw [hdef]
    rcases argminAbsDiffGo_spec m xs 1 0 |x - m| with ⟨hres, hall⟩ | ⟨k, hk, hres, hlt, hall, hfirst⟩
    · rw [hres]
      refine ⟨by simp, ?_, ?_⟩
      · intro j hj
        cases j with
        | zero => simp
        | succ j' =>
          simp only [List.getD_cons_succ, List.getD_cons_zero]
          exact hall j' (by simpa using hj)
      · intro j hj
        omega
    · rw [hres]
      refine ⟨by simp only [List.length_cons]; omega, ?_, ?_⟩
      · intro j hj
        show |(x :: xs).getD (1 + k) 0 - m| ≤ _
        rw [show 1 + k = k + 1 by omega]
        simp only [List.getD_cons_succ]
        cases j with
        | zero =>
          simp only [List.getD_cons_zero]
          exact le_of_lt hlt
        | succ j' =>
          simp only [List.getD_cons_succ]
          exact hall j' (by simpa using hj)
      · intro j hj
        show |(x :: xs).getD (1 + k) 0 - m| < _
        rw [show 1 + k = k + 1 by omega]
        simp only [List.getD_cons_succ]
        cases j with
        | zero =>
          simp only [List.getD_cons_zero]
          exact hlt
        | succ j' =>
          simp only [List.getD_cons_succ]
          exact hfirst j' (by omega)

/-- The concrete relative-step scan of the C2 counterexample. -/
def relScan : ScanDimension :=
  { type := "distance", indices := [0, 1], steps := [0, 5], step_type := StepTypeEnum.relative }

/-- A molecule whose measured coordinate is `5`. -/
def relMol : Molecule := { measureFn := fun _ => 5 }

/-- C2 counterexample: for a `relative` scan the code uses `m = 0`, not
the measured coordinate of the starting molecule.  With steps `[0, 5]` and
a measured coordinate of `5`, the code picks index `0` while
`argmin |steps[i] − measure|` is index `1`. -/
theorem calculate_starting_grid_relative_counterexample :
    calculate_starting_grid [relScan] relMol ≠
      [(argminAbsDiff relScan.steps (relMol.measure relScan.indices) : Int)] := by
  have hcode : calculate_starting_grid [relScan] relMol = [(0 : Int)] := by
    simp only [calculate_starting_grid, relScan, relMol, Molecule.measure, List.map,
      argminAbsDiff, argminAbsDiffGo]
    norm_num
  have hclaim : argminAbsDiff relScan.steps (relMol.measure relScan.indices) = 1 := by
    simp only [relScan, relMol, Molecule.measure, argminAbsDiff, argminAbsDiffGo]
    norm_num
  rw [hcode, hclaim]
  simp

/-- C2 (amended): `calculate_starting_grid` returns, per scan, the first
index minimizing `|steps[i] − m|`, where `m` is the measured coordinate of
the starting molecule for an `absolute` scan but `0` for a `relative` scan
(the code does not measure the molecule for relative scans). -/
theorem calculate_starting_grid_argmin (scans : List ScanDimension) (mol : Molecule)
    (hne : ∀ scan ∈ scans, scan.steps ≠ []) :
    (calculate_starting_grid scans mol).length = scans.length ∧
    ∀ d (hd : d < scans.length),
      let scan := scans.get ⟨d, hd⟩
      let m : Rat :=
        match scan.step_type with
        | StepTypeEnum.absolute => mol.measure scan.indices
        | StepTypeEnum.relative => 0
      (calculate_starting_grid scans mol).getD d 0 = (argminAbsDiff scan.steps m : Int) ∧
      argminAbsDiff scan.steps m < scan.steps.length ∧
      (∀ j, j < scan.steps.length →
        |scan.steps.getD (argminAbsDiff scan.steps m) 0 - m| ≤ |scan.steps.getD j 0 - m|) ∧
      (∀ j, j < argminAbsDiff scan.steps m →
        |scan.steps.getD (argminAbsDiff scan.steps m) 0 - m| < |scan.steps.getD j 0 - m|) := by
  constructor
  · simp [calculate_starting_grid]
  · intro d hd
    have hget : (calculate_starting_grid scans mol).getD d 0 =
        (argminAbsDiff (scans.get ⟨d, hd⟩).steps
          (match (scans.get ⟨d, hd⟩).step_type with
           | StepTypeEnum.absolute => mol.measure (scans.get ⟨d, hd⟩).indices
           | StepTypeEnum.relative => 0) : Int) := by
      have hlen : d < (calculate_starting_grid scans mol).length := by
        simpa [calculate_starting_grid] using hd
      rw [List.getD_eq_getElem?_getD, List.getElem?_eq_getElem hlen]
      simp [calculate_starting_grid, List.getElem_map]
    refine ⟨hget, ?_⟩
    have hs := argminAbsDiff_spec (scans.get ⟨d, hd⟩).steps
      (match (scans.get ⟨d, hd⟩).step_type with
       | StepTypeEnum.absolute => mol.measure (scans.get ⟨d, hd⟩).indices
       | StepTypeEnum.relative => 0)
      (hne _ (List.get_mem scans d hd))
    exact hs

/-- Witness for the amended C2 at the counterexample scan and molecule. -/
theorem calculate_starting_grid_argmin_witness :
    (∀ scan ∈ [relScan], scan.steps ≠ []) ∧
    ((calculate_starting_grid [relScan] relMol).length = [relScan].length ∧
    ∀ d (hd : d < ([relScan] : List ScanDimension).length),
      let scan := ([relScan] : List ScanDimension).get ⟨d, hd⟩
      let m : Rat :=
        match scan.step_type with
        | StepTypeEnum.absolute => relMol.measure scan.indices
        | StepTypeEnum.relative => 0
      (calculate_starting_grid [relScan] relMol).getD d 0 =
        (argminAbsDiff scan.steps m : Int) ∧
      argminAbsDiff scan.steps m < scan.steps.length ∧
      (∀ j, j < scan.steps.length →
        |scan.steps.getD (argminAbsDiff scan.steps m) 0 - m| ≤ |scan.steps.getD j 0 - m|) ∧
      (∀ j, j < argminAbsDiff scan.steps m →
        |scan.steps.getD (argminAbsDiff scan.steps m) 0 - m| < |scan.steps.getD j 0 - m|)) := by
  have hne : ∀ scan ∈ [relScan], scan.steps ≠ [] := by
    intro scan hs
    rw [List.mem_singleton] at hs
    subst hs
    simp [relScan]
  exact ⟨hne, calculate_starting_grid_argmin [relScan] relMol hne⟩

/-- Modelled from the spec: `calculate_limit` (`qcportal.utils`, not under
`src/`) clips a requested limit to the server-configured maximum — a
missing limit means "as many as allowed", a larger one is reduced to the
maximum. -/
def calculate_limit (max_limit : Nat) (given_limit : Option Nat) : Nat :=
  match given_limit with
  | none => max_limit
  | some lim => min lim max_limit

/-- The body of a task-claim request (`TaskClaimBody`): the manager name
data is irrelevant here. -/
structure TaskClaimBody where
  tags : List String
  limit : Option Nat

/-- The limit that `claim_tasks_v1` (tasks/routes.py lines 13-25) passes
to `storage_socket.tasks.claim_tasks`: the requested limit clipped to the
configured `api_limits.manager_tasks_claim`. -/
def claim_tasks_v1_effective_limit (manager_tasks_claim : Nat) (body : TaskClaimBody) : Nat :=
  calculate_limit manager_tasks_claim body.limit

/-- Embedding of `return_tasks_v1` (tasks/routes.py lines 28-37): a
results batch larger than `manager_tasks_claim` raises `LimitExceededError`
before any task is processed; otherwise the batch is handed to
`tasks.update_finished` (abstracted as `update_finished`). -/
def return_tasks_v1 {α β : Type _} (manager_tasks_claim : Nat) (results : List α)
    (update_finished : List α → β) : Except String β :=
  if results.length > manager_tasks_claim then
    Except.error "LimitExceeded"
  else
    Except.ok (update_finished results)

/-- C7: the effective claim limit is the requested limit clipped to the
configured maximum (`manager_tasks_claim`), and a return request whose
results batch is strictly larger than that same maximum is rejected with a
`LimitExceeded` error before any task is processed. -/
theorem task_routes_limits {α β : Type _} (max_limit : Nat) (body : TaskClaimBody)
    (results : List α) (update_finished : List α → β) :
    claim_tasks_v1_effective_limit max_limit body ≤ max_limit ∧
    (∀ l, body.limit = some l →
      claim_tasks_v1_effective_limit max_limit body = min l max_limit) ∧
    (body.limit = none → claim_tasks_v1_effective_limit max_limit body = max_limit) ∧
    (results.length > max_limit →
      return_tasks_v1 max_limit results update_finished = Except.error "LimitExceeded") ∧
    (results.length ≤ max_limit →
      return_tasks_v1 max_limit results update_finished =
        Except.ok (update_finished results)) := by
  refine ⟨?_, ?_, ?_, ?_, ?_⟩
  · cases hb : body.limit with
    | none => simp [claim_tasks_v1_effective_limit, calculate_limit, hb]
    | some l =>
      simp [claim_tasks_v1_effective_limit, calculate_limit, hb]
  · intro l hb
    simp [claim_tasks_v1_effective_limit, calculate_limit, hb]
  · intro hb
    simp [claim_tasks_v1_effective_limit, calculate_limit, hb]
  · intro hgt
    simp [return_tasks_v1, hgt]
  · intro hle
    simp [return_tasks_v1, Nat.not_lt.mpr hle]

/-- Witness for C7 with a requested limit of 10 against a maximum of 3 and
a batch of 4 results. -/
theorem task_routes_limits_witness :
    claim_tasks_v1_effective_limit 3 { tags := ["*"], limit := some 10 } = min 10 3 ∧
    return_tasks_v1 3 ([0, 1, 2, 3] : List Nat) List.length = Except.error "LimitExceeded" :=
  ⟨(task_routes_limits 3 { tags := ["*"], limit := some 10 } ([] : List Nat) List.length).2.1
      10 rfl,
   (task_routes_limits 3 { tags := ["*"], limit := some 10 } ([0, 1, 2, 3] : List Nat)
      List.length).2.2.2.1 (by decide)⟩

theorem char_toLower_idem (c : Char) : c.toLower.toLower = c.toLower := by
  unfold Char.toLower
  by_cases h : c.toNat ≥ 65 ∧ c.toNat ≤ 90
  · rw [if_pos h]
    have hv : (c.toNat + 32).isValidChar := Or.inl (by omega)
    rw [if_neg]
    rw [char_toNat_ofNat hv]
    omega
  · rw [if_neg h, if_neg h]

theorem pyLower_idem (s : String) : pyLower (pyLower s) = pyLower s := by
  simp only [pyLower, data_mk, List.map_map]
  congr 1
  apply List.map_congr_left
  intro c _
  exact char_toLower_idem c

/-- Embedding of `RecordBase.check_program` (interface/models/records.py
lines 129-131): the `program` validator lowercases its input. -/
def check_program (v : String) : String := pyLower v

/-- Embedding of `ResultRecord.check_method` (interface/models/records.py
lines 326-330): the `method` validator lowercases its input. -/
def check_method (v : String) : String := pyLower v

/-- Modelled from the spec: `prepare_basis`
(`qcfractal.interface.models.model_utils`, not under `src/`) case-folds
the basis string to lowercase. -/
def prepare_basis (v : String) : String := pyLower v

/-- Embedding of `ResultRecord.check_basis` (interface/models/records.py
lines 332-334). -/
def check_basis (v : String) : String := prepare_basis v

/-- The validated string fields of a `ResultRecord`. -/
structure ResultRecordFields where
  program : String
  method : String
  basis : String

/-- Construction of a `ResultRecord` at the client boundary: pydantic runs
the field validators on the given values. -/
def mk_result_record (program method basis : String) : ResultRecordFields :=
  { program := check_program program, method := check_method method, basis := check_basis basis }

/-- A check constraint `column = lower(column)` on a table, as created by
`op.create_check_constraint` in the migration. -/
structure LowerCheckConstraint where
  name : String
  table : String
  column : String
deriving DecidableEq, Repr

/-- The lowercase check constraints created by the `upgrade` of alembic
migration `88182596f844` (lines 20-42): each asserts
`column = lower(column)`. -/
def migration_88182596f844_lower_checks : List LowerCheckConstraint :=
  [ { name := "ck_result_program_lower", table := "result", column := "program" },
    { name := "ck_result_driver_lower", table := "result", column := "driver" },
    { name := "ck_result_method_lower", table := "result", column := "method" },
    { name := "ck_result_basis_lower", table := "result", column := "basis" },
    { name := "ck_optimization_procedure_program_lower", table := "optimization_procedure",
      column := "program" },
    { name := "ck_grid_optimization_procedure_program_lower",
      table := "grid_optimization_procedure", column := "program" },
    { name := "ck_torsiondrive_procedure_program_lower", table := "torsiondrive_procedure",
      column := "program" } ]

/-- The predicate a lowercase check constraint enforces on a stored
value. -/
def satisfiesLowerCheck (s : String) : Prop := s = pyLower s

/-- C8: records constructed at the client boundary have `program`,
`method` and `basis` case-folded to lowercase by the validators — the
stored value equals the lowercase of any input and therefore satisfies the
store's `column = lower(column)` checks — and the migration creates those
checks on `program`, `method`, `basis` and `driver` of the `result`
table. -/
theorem result_record_lowercase (program method basis : String) :
    (mk_result_record program method basis).program = pyLower program ∧
    (mk_result_record program method basis).method = pyLower method ∧
    (mk_result_record program method basis).basis = pyLower basis ∧
    satisfiesLowerCheck (mk_result_record program method basis).program ∧
    satisfiesLowerCheck (mk_result_record program method basis).method ∧
    satisfiesLowerCheck (mk_result_record program method basis).basis ∧
    (∀ col ∈ ["program", "driver", "method", "basis"],
      ∃ ck ∈ migration_88182596f844_lower_checks, ck.table = "result" ∧ ck.column = col) := by
  refine ⟨rfl, rfl, rfl, ?_, ?_, ?_, ?_⟩
  · exact (pyLower_idem program).symm
  · exact (pyLower_idem method).symm
  · exact (pyLower_idem basis).symm
  · intro col hcol
    simp only [List.mem_cons, List.not_mem_nil, or_false] at hcol
    rcases hcol with h | h | h | h <;> subst h
    · exact ⟨{ name := "ck_result_program_lower", table := "result", column := "program" },
        by simp [migration_88182596f844_lower_checks], rfl, rfl⟩
    · exact ⟨{ name := "ck_result_driver_lower", table := "result", column := "driver" },
        by simp [migration_88182596f844_lower_checks], rfl, rfl⟩
    · exact ⟨{ name := "ck_result_method_lower", table := "result", column := "method" },
        by simp [migration_88182596f844_lower_checks], rfl, rfl⟩
    · exact ⟨{ name := "ck_result_basis_lower", table := "result", column := "basis" },
        by simp [migration_88182596f844_lower_checks], rfl, rfl⟩

/-- Witness for C8 at concrete mixed-case inputs, with the `driver` check
looked up in the migration. -/
theorem result_record_lowercase_witness :
    (mk_result_record "Psi4" "B3LYP" "Def2-SVP").program = pyLower "Psi4" ∧
    (∃ ck ∈ migration_88182596f844_lower_checks, ck.table = "result" ∧ ck.column = "driver") :=
  ⟨(result_record_lowercase "Psi4" "B3LYP" "Def2-SVP").1,
   (result_record_lowercase "Psi4" "B3LYP" "Def2-SVP").2.2.2.2.2.2 "driver" (by simp)⟩

/-- The slice of a `ServiceQueueORM` row attached by `create_service`. -/
structure ServiceRow where
  tag : Option String
  priority : Nat
deriving Repr

/-- Modelled from the spec: `BaseRecordSocket.create_service`
(`components/records/sockets.py`, not under `src/`) attaches a
service-queue row carrying the given tag and priority to the record. -/
def create_service (tag : Option String) (priority : Nat) : ServiceRow :=
  { tag := tag, priority := priority }

/-- A new grid-optimization record row as built by
`GridoptimizationRecordSocket.add` (source lines 470-480), with its
attached service row. -/
structure NewGORecordRow where
  is_service : Bool
  specification_id : Nat
  initial_molecule_id : Nat
  status : RecordStatusEnum
  service : ServiceRow
deriving Repr

/-- Embedding of the record-building loop of
`GridoptimizationRecordSocket.add` (source lines 410-489): the tag is
lowercased up front ("tags should be lowercase", lines 444-446), then one
waiting service record per initial molecule is created with that tag. -/
def gridoptimization_add (spec_id : Nat) (init_mol_ids : List Nat) (tag : Option String)
    (priority : Nat) : List NewGORecordRow :=
  let tag := tag.map pyLower
  init_mol_ids.map (fun mid =>
    { is_service := true, specification_id := spec_id, initial_molecule_id := mid,
      status := RecordStatusEnum.waiting, service := create_service tag priority })

/-- C10: every service row created by `GridoptimizationRecordSocket.add`
with a non-`none` tag carries the lowercase of the submitted tag, so two
submissions whose tags differ only in case store the same tag. -/
theorem gridoptimization_add_tag_lower (spec_id : Nat) (init_mol_ids : List Nat)
    (priority : Nat) :
    (∀ t, ∀ row ∈ gridoptimization_add spec_id init_mol_ids (some t) priority,
      row.service.tag = some (pyLower t)) ∧
    (∀ t1 t2, pyLower t1 = pyLower t2 →
      gridoptimization_add spec_id init_mol_ids (some t1) priority =
        gridoptimization_add spec_id init_mol_ids (some t2) priority) := by
  constructor
  · intro t row hrow
    simp only [gridoptimization_add, Option.map_some', List.mem_map] at hrow
    obtain ⟨mid, -, hmk⟩ := hrow
    rw [← hmk]
    rfl
  · intro t1 t2 heq
    simp [gridoptimization_add, heq]

/-- Witness for C10 with the tags `"TAG"` and `"tag"`. -/
theorem gridoptimization_add_tag_lower_witness :
    (∀ row ∈ gridoptimization_add 1 [4, 5] (some "TAG") 0,
      row.service.tag = some (pyLower "TAG")) ∧
    gridoptimization_add 1 [4, 5] (some "TAG") 0 =
      gridoptimization_add 1 [4, 5] (some "tag") 0 :=
  ⟨(gridoptimization_add_tag_lower 1 [4, 5] 0).1 "TAG",
   (gridoptimization_add_tag_lower 1 [4, 5] 0).2 "TAG" "tag" (by rfl)⟩
